import Mathlib

/-!
Shallow embedding of the AuraToken allocation engine
(`src/app/allocation_engine.py`, data model from `src/app/models.py`).

Modelling conventions:
* SQLAlchemy rows become Lean structures; the database session becomes an
  explicit `EngineState` record threaded through every operation.
* Python `datetime` values become `Nat` timestamps.  A calendar date
  (the `date` column, format YYYY-MM-DD) becomes a `Nat` day index; the
  timestamp at midnight of day `d` is `dateStart d = d * dayLength`, which
  models `datetime.strptime(date, "%Y-%m-%d")`.
* A token number string `f"DOC{doctor_id}-{date_short}-{count + 1:04d}"`
  is modelled as the `TokenNumber` record of its three components; the
  formatting is injective on components, so equality of strings coincides
  with equality of records.
* Python `raise ValueError(...)` becomes an `EngineError` value.  Every
  operation returns `EngineState × Except EngineError α`: the state
  component is the session state at the moment the operation returns or
  raises, so partially applied mutations before a raise stay visible,
  exactly as in the SQLAlchemy session.
* `max(0, n - 1)` on a Python int that is never negative is `n - 1` on
  `Nat` (truncated subtraction).
* Free-text notes (`token.notes`, appended to by f-strings) are modelled
  as the list of appended fragments.
* SQL `ORDER BY` with `LIMIT 1` is modelled by a fold that keeps the first
  row that is minimal for the sort key; a full `ORDER BY` is modelled by
  `List.insertionSort`, a stable sort, matching the stability requirement
  of the spec (ties in the key are impossible in reachable states, see the
  queue-ordering theorems, so any sort consistent with the key agrees).
-/

namespace AuraToken

/-- Token source types with priority ordering (`models.TokenSource`). -/
inductive TokenSource where
  | priority
  | follow_up
  | online
  | walk_in
deriving DecidableEq

/-- Token lifecycle states (`models.TokenStatus`). -/
inductive TokenStatus where
  | allocated
  | checked_in
  | consulting
  | completed
  | cancelled
  | no_show
deriving DecidableEq

/-- Components of the generated token number string
`f"DOC{doctor_id}-{date_short}-{ordinal:04d}"` (the formatting is
injective on the components). -/
structure TokenNumber where
  doctor_id : Nat
  date : Nat
  ordinal : Nat
deriving DecidableEq

/-- Token entity with allocation details (`models.Token`). -/
structure Token where
  id : Nat
  token_number : TokenNumber
  patient_name : String
  patient_phone : String
  doctor_id : Nat
  slot_id : Nat
  source : TokenSource
  status : TokenStatus
  priority_score : Nat
  sequence_number : Nat
  allocated_at : Nat
  checked_in_at : Option Nat
  consultation_started_at : Option Nat
  completed_at : Option Nat
  notes : List String
deriving DecidableEq

/-- Time slot with capacity management (`models.TimeSlot`). -/
structure TimeSlot where
  id : Nat
  doctor_id : Nat
  date : Nat
  start_time : Nat
  end_time : Nat
  max_capacity : Nat
  current_count : Nat
  is_active : Bool
deriving DecidableEq

/-- Request shape consumed by allocation (`schemas.TokenRequest`). -/
structure TokenRequest where
  patient_name : String
  patient_phone : String
  doctor_id : Nat
  slot_id : Nat
  source : TokenSource
  notes : List String
deriving DecidableEq

/-- The persistent state visible to the engine: the slot and token tables,
the autoincrement counter for token primary keys, and the current wall
clock (`datetime.utcnow()`). -/
structure EngineState where
  slots : List TimeSlot
  tokens : List Token
  next_token_id : Nat
  now : Nat
deriving DecidableEq

/-- The `ValueError` conditions raised by the engine, plus the
`IntegrityError` raised at flush time when the created token's
`token_number` violates the unique constraint declared on the column
(`models.Token.token_number`, `unique=True`, models line 76). -/
inductive EngineError where
  | slotNotFound (slot_id : Nat)
  | slotInactive (slot_id : Nat)
  | slotFullWithAlternative (slot_id alt_id : Nat)
  | slotAtCapacity (slot_id : Nat)
  | tokenNotFound (token_id : Nat)
  | cannotCancel (st : TokenStatus)
  | cannotNoShow (st : TokenStatus)
  | differentDoctor
  | newSlotAtCapacity (slot_id : Nat)
  | emergencyNotPossible
  | integrityError (token_number : TokenNumber)
deriving DecidableEq

/-- Number of clock units in one day: `dateStart d` is the timestamp of
midnight at the start of day `d`, modelling
`datetime.strptime(date, "%Y-%m-%d")`. -/
def dayLength : Nat := 1440

/-- Timestamp of midnight starting calendar day `date`. -/
def dateStart (date : Nat) : Nat := date * dayLength

/-- Statuses that consume slot capacity (glossary: occupying status). -/
def occupying (st : TokenStatus) : Prop :=
  st = TokenStatus.allocated ∨ st = TokenStatus.checked_in ∨ st = TokenStatus.consulting

instance : DecidablePred occupying := fun st => by
  unfold occupying; infer_instance

/-- Row lookup `SELECT * FROM time_slots WHERE id = slot_id` (primary-key
lookup; returns the first matching row). -/
def findSlot (s : EngineState) (slot_id : Nat) : Option TimeSlot :=
  s.slots.find? (fun sl => decide (sl.id = slot_id))

/-- Row lookup `SELECT * FROM tokens WHERE id = token_id`. -/
def findToken (s : EngineState) (token_id : Nat) : Option Token :=
  s.tokens.find? (fun t => decide (t.id = token_id))

/-- Update the slot row with the given primary key in place. -/
def updateSlot (s : EngineState) (slot_id : Nat) (f : TimeSlot → TimeSlot) : EngineState :=
  { s with slots := s.slots.map (fun sl => if sl.id = slot_id then f sl else sl) }

/-- Update the token row with the given primary key in place. -/
def updateToken (s : EngineState) (token_id : Nat) (f : Token → Token) : EngineState :=
  { s with tokens := s.tokens.map (fun t => if t.id = token_id then f t else t) }

/-- `TokenAllocationEngine.PRIORITY_WEIGHTS` (engine lines 23-28). -/
def PRIORITY_WEIGHTS : TokenSource → Nat
  | TokenSource.priority => 10
  | TokenSource.follow_up => 5
  | TokenSource.online => 3
  | TokenSource.walk_in => 1

/-- `_calculate_priority_score` (engine lines 293-302):
`base_score * 10 + max(0, 10 - current_count)`; the truncated `Nat`
subtraction is exactly `max(0, 10 - current_count)` for a non-negative
count. -/
def calculate_priority_score (source : TokenSource) (current_count : Nat) : Nat :=
  PRIORITY_WEIGHTS source * 10 + (10 - current_count)

/-- `_get_slot_with_validation` (engine lines 264-279). -/
def getSlotWithValidation (s : EngineState) (slot_id : Nat) : Except EngineError TimeSlot :=
  match findSlot s slot_id with
  | none => Except.error (EngineError.slotNotFound slot_id)
  | some sl =>
    if sl.is_active then Except.ok sl
    else Except.error (EngineError.slotInactive slot_id)

/-- `_get_token` (engine lines 281-291). -/
def getToken (s : EngineState) (token_id : Nat) : Except EngineError Token :=
  match findToken s token_id with
  | none => Except.error (EngineError.tokenNotFound token_id)
  | some t => Except.ok t

/-- `_get_next_sequence_number` (engine lines 304-311):
`SELECT max(sequence_number) FROM tokens WHERE slot_id = :slot_id` over
tokens of every status, then `(max_seq or 0) + 1`. -/
def get_next_sequence_number (s : EngineState) (slot_id : Nat) : Nat :=
  ((s.tokens.filter (fun t => decide (t.slot_id = slot_id))).foldl
    (fun m t => max m t.sequence_number) 0) + 1

/-- `_generate_token_number` (engine lines 313-326): counts the doctor's
tokens whose `allocated_at` is at or after midnight of the given date
(`Token.allocated_at >= datetime.strptime(date, "%Y-%m-%d")` — no upper
bound on the timestamp), then formats `DOC{doctor_id}-{date}-{count+1}`. -/
def generate_token_number (s : EngineState) (doctor_id date : Nat) : TokenNumber :=
  let count := (s.tokens.filter (fun t =>
    decide (t.doctor_id = doctor_id ∧ dateStart date ≤ t.allocated_at))).length
  { doctor_id := doctor_id, date := date, ordinal := count + 1 }

/-- Filter of `_find_alternative_slot` (engine lines 334-346): active slot
of the given doctor and date with spare capacity. -/
def slotAvailable (sl : TimeSlot) (doctor_id date : Nat) : Prop :=
  sl.doctor_id = doctor_id ∧ sl.date = date ∧ sl.is_active = true ∧
    sl.current_count < sl.max_capacity

instance (doctor_id date : Nat) : DecidablePred (slotAvailable · doctor_id date) :=
  fun sl => by unfold slotAvailable; infer_instance

/-- One step of a SQL `ORDER BY <key> LIMIT 1` query, modelled as a fold
that keeps the first row that is minimal for the strict key order `R`. -/
def minByStep {α : Type} (R : α → α → Prop) [DecidableRel R]
    (acc : Option α) (t : α) : Option α :=
  match acc with
  | none => some t
  | some b => if R t b then some t else some b

/-- Sort key of the alternative-slot query (`ORDER BY start_time`). -/
def earlierStart (a b : TimeSlot) : Prop := a.start_time < b.start_time

instance : DecidableRel earlierStart := fun a b => by
  unfold earlierStart; infer_instance

/-- `_find_alternative_slot` (engine lines 328-347):
`ORDER BY start_time LIMIT 1` over the available slots, modelled as the
first row minimal in `start_time`. -/
def find_alternative_slot (s : EngineState) (doctor_id date : Nat) : Option TimeSlot :=
  (s.slots.filter (fun sl => decide (slotAvailable sl doctor_id date))).foldl
    (minByStep earlierStart) none

/-- `allocate_token` (engine lines 33-101).  The `db.flush()` at line 98
executes the INSERT: when the generated `token_number` equals the number
of a token already in the table, the unique constraint on the column
(`models.Token.token_number`, `unique=True`) makes the flush raise
`IntegrityError`.  That exception aborts the enclosing transaction — the
session can only be rolled back afterwards, so none of the call's pending
changes can ever be committed or observed — which is modelled as the
operation returning its initial state with the error. -/
def allocate_token (s : EngineState) (req : TokenRequest) :
    EngineState × Except EngineError Token :=
  match getSlotWithValidation s req.slot_id with
  | Except.error e => (s, Except.error e)
  | Except.ok slot =>
    if slot.max_capacity ≤ slot.current_count then
      match find_alternative_slot s req.doctor_id slot.date with
      | some alt => (s, Except.error (EngineError.slotFullWithAlternative slot.id alt.id))
      | none => (s, Except.error (EngineError.slotAtCapacity slot.id))
    else
      if s.tokens.any (fun t => decide (t.token_number =
          generate_token_number s slot.doctor_id slot.date)) then
        (s, Except.error (EngineError.integrityError
          (generate_token_number s slot.doctor_id slot.date)))
      else
      let priority_score := calculate_priority_score req.source slot.current_count
      let sequence_number := get_next_sequence_number s req.slot_id
      let token_number := generate_token_number s slot.doctor_id slot.date
      let token : Token := {
        id := s.next_token_id
        token_number := token_number
        patient_name := req.patient_name
        patient_phone := req.patient_phone
        doctor_id := req.doctor_id
        slot_id := req.slot_id
        source := req.source
        status := TokenStatus.allocated
        priority_score := priority_score
        sequence_number := sequence_number
        allocated_at := s.now
        checked_in_at := none
        consultation_started_at := none
        completed_at := none
        notes := req.notes }
      let s1 : EngineState :=
        { s with tokens := s.tokens ++ [token], next_token_id := s.next_token_id + 1 }
      let s2 := updateSlot s1 req.slot_id (fun sl => { sl with current_count := sl.current_count + 1 })
      (s2, Except.ok token)

/-- Lexicographic queue key of `get_slot_queue` (engine lines 254-258) as
a non-strict relation: priority score descending, then sequence number
ascending, then allocation time ascending. -/
def queueLax (a b : Token) : Prop :=
  b.priority_score < a.priority_score ∨
    (a.priority_score = b.priority_score ∧
      (a.sequence_number < b.sequence_number ∨
        (a.sequence_number = b.sequence_number ∧ a.allocated_at ≤ b.allocated_at)))

instance : DecidableRel queueLax := fun a b => by
  unfold queueLax; infer_instance

/-- The same queue key as a strict relation (strictly earlier in the
queue order). -/
def strictBefore (a b : Token) : Prop :=
  b.priority_score < a.priority_score ∨
    (a.priority_score = b.priority_score ∧
      (a.sequence_number < b.sequence_number ∨
        (a.sequence_number = b.sequence_number ∧ a.allocated_at < b.allocated_at)))

instance : DecidableRel strictBefore := fun a b => by
  unfold strictBefore; infer_instance

instance : IsTotal Token queueLax where
  total := by
    intro a b
    unfold queueLax
    rcases Nat.lt_trichotomy a.priority_score b.priority_score with h | h | h
    · exact Or.inr (Or.inl h)
    · rcases Nat.lt_trichotomy a.sequence_number b.sequence_number with h2 | h2 | h2
      · exact Or.inl (Or.inr ⟨h, Or.inl h2⟩)
      · rcases Nat.le_total a.allocated_at b.allocated_at with h3 | h3
        · exact Or.inl (Or.inr ⟨h, Or.inr ⟨h2, h3⟩⟩)
        · exact Or.inr (Or.inr ⟨h.symm, Or.inr ⟨h2.symm, h3⟩⟩)
      · exact Or.inr (Or.inr ⟨h.symm, Or.inl h2⟩)
    · exact Or.inl (Or.inl h)

instance : IsTrans Token queueLax where
  trans := by
    intro a b c hab hbc
    unfold queueLax at hab hbc ⊢
    rcases hab with h1 | ⟨h1, h1b⟩
    · rcases hbc with h2 | ⟨h2, _⟩
      · exact Or.inl (h2.trans h1)
      · exact Or.inl (h2 ▸ h1)
    · rcases hbc with h2 | ⟨h2, h2b⟩
      · exact Or.inl (h1 ▸ h2)
      · refine Or.inr ⟨h1.trans h2, ?_⟩
        rcases h1b with h3 | ⟨h3, h3b⟩
        · rcases h2b with h4 | ⟨h4, _⟩
          · exact Or.inl (h3.trans h4)
          · exact Or.inl (h4 ▸ h3)
        · rcases h2b with h4 | ⟨h4, h4b⟩
          · exact Or.inl (h3 ▸ h4)
          · exact Or.inr ⟨h3.trans h4, h3b.trans h4b⟩

/-- `get_slot_queue` (engine lines 233-260): tokens of the slot in an
occupying status, sorted by (priority score desc, sequence asc,
allocation time asc). -/
def get_slot_queue (s : EngineState) (slot_id : Nat) : List Token :=
  List.insertionSort queueLax
    (s.tokens.filter (fun t => decide (t.slot_id = slot_id ∧ occupying t.status)))

/-- The per-row effect of `_resequence_slot_tokens`: a token appearing in
the queue at index `i` (0-based) receives sequence number `i + 1`; rows
not in the queue are untouched. -/
def resequenceUpdate (queue : List Token) (t : Token) : Token :=
  match queue.findIdx? (fun q => decide (q.id = t.id)) with
  | some i => { t with sequence_number := i + 1 }
  | none => t

/-- `_resequence_slot_tokens` (engine lines 349-356):
`for idx, token in enumerate(queue, start=1): token.sequence_number = idx`
applied to the session rows. -/
def resequence_slot_tokens (s : EngineState) (slot_id : Nat) : EngineState :=
  { s with tokens := s.tokens.map (resequenceUpdate (get_slot_queue s slot_id)) }

/-- The token mutation performed by `cancel_token` (engine lines
119-122): set status `cancelled`, stamp completion time, append the
cancellation reason (if any) to the notes. -/
def cancelUpdate (now : Nat) (reason : Option String) (t : Token) : Token :=
  { t with
    status := TokenStatus.cancelled
    completed_at := some now
    notes := match reason with
      | some r => t.notes ++ ["Cancellation: " ++ r]
      | none => t.notes }

/-- `cancel_token` (engine lines 103-133).  Note the order of effects in
the source: the token row is mutated first (lines 119-122) and the slot is
fetched and validated only afterwards (line 125), so a slot-validation
failure raises after the token mutation. -/
def cancel_token (s : EngineState) (token_id : Nat) (reason : Option String) :
    EngineState × Except EngineError Token :=
  match getToken s token_id with
  | Except.error e => (s, Except.error e)
  | Except.ok token =>
    if token.status = TokenStatus.completed ∨ token.status = TokenStatus.cancelled then
      (s, Except.error (EngineError.cannotCancel token.status))
    else
      let s1 := updateToken s token_id (cancelUpdate s.now reason)
      match getSlotWithValidation s1 token.slot_id with
      | Except.error e => (s1, Except.error e)
      | Except.ok _slot =>
        let s2 := updateSlot s1 token.slot_id
          (fun sl => { sl with current_count := sl.current_count - 1 })
        let s3 := resequence_slot_tokens s2 token.slot_id
        (s3, Except.ok (cancelUpdate s.now reason token))

/-- The token mutation performed by `mark_no_show` (engine lines
223-224): set status `no_show` and stamp completion time. -/
def noShowUpdate (now : Nat) (t : Token) : Token :=
  { t with status := TokenStatus.no_show, completed_at := some now }

/-- `mark_no_show` (engine lines 216-231).  As in `cancel_token`, the
token row is mutated before the slot is validated. -/
def mark_no_show (s : EngineState) (token_id : Nat) :
    EngineState × Except EngineError Token :=
  match getToken s token_id with
  | Except.error e => (s, Except.error e)
  | Except.ok token =>
    if token.status ≠ TokenStatus.allocated then
      (s, Except.error (EngineError.cannotNoShow token.status))
    else
      let s1 := updateToken s token_id (noShowUpdate s.now)
      match getSlotWithValidation s1 token.slot_id with
      | Except.error e => (s1, Except.error e)
      | Except.ok _slot =>
        let s2 := updateSlot s1 token.slot_id
          (fun sl => { sl with current_count := sl.current_count - 1 })
        (s2, Except.ok (noShowUpdate s.now token))

/-- The second token mutation performed by `reallocate_token` (engine
lines 169-172): assign the fresh sequence number and append the
reallocation reason (if any) to the notes. -/
def reallocUpdate (seq : Nat) (reason : Option String) (t : Token) : Token :=
  { t with
    sequence_number := seq
    notes := match reason with
      | some r => t.notes ++ ["Reallocation: " ++ r]
      | none => t.notes }

/-- `reallocate_token` (engine lines 135-180).  All validations precede
every mutation.  The fresh sequence number is computed after
`token.slot_id` has been set to the new slot (the session autoflushes the
pending update before running the `max` query), so the query already sees
the moved token.  After resequencing both slots the mutated token row is
read back as the return value. -/
def reallocate_token (s : EngineState) (token_id new_slot_id : Nat) (reason : Option String) :
    EngineState × Except EngineError Token :=
  match getToken s token_id with
  | Except.error e => (s, Except.error e)
  | Except.ok token =>
    match getSlotWithValidation s token.slot_id with
    | Except.error e => (s, Except.error e)
    | Except.ok old_slot =>
      match getSlotWithValidation s new_slot_id with
      | Except.error e => (s, Except.error e)
      | Except.ok new_slot =>
        if token.doctor_id ≠ new_slot.doctor_id then
          (s, Except.error EngineError.differentDoctor)
        else if new_slot.max_capacity ≤ new_slot.current_count then
          (s, Except.error (EngineError.newSlotAtCapacity new_slot_id))
        else
          let s1 := updateSlot s old_slot.id
            (fun sl => { sl with current_count := sl.current_count - 1 })
          let s2 := updateSlot s1 new_slot.id
            (fun sl => { sl with current_count := sl.current_count + 1 })
          let s3 := updateToken s2 token_id (fun t => { t with slot_id := new_slot_id })
          let seq := get_next_sequence_number s3 new_slot_id
          let s4 := updateToken s3 token_id (reallocUpdate seq reason)
          let s5 := resequence_slot_tokens s4 old_slot.id
          let s6 := resequence_slot_tokens s5 new_slot.id
          match getToken s6 token_id with
          | Except.ok t6 => (s6, Except.ok t6)
          | Except.error e => (s6, Except.error e)

/-- Candidate filter of `_reallocate_lowest_priority` (engine lines
364-375): walk-in tokens of the slot in status `allocated` (and no other
occupying status). -/
def bumpCandidate (t : Token) (slot_id : Nat) : Prop :=
  t.slot_id = slot_id ∧ t.source = TokenSource.walk_in ∧ t.status = TokenStatus.allocated

instance (slot_id : Nat) : DecidablePred (bumpCandidate · slot_id) :=
  fun t => by unfold bumpCandidate; infer_instance

/-- Sort key of the victim query
(`ORDER BY priority_score ASC, allocated_at DESC`): row `t` sorts
strictly before row `b` when it has a lower priority score, or an equal
score and a later allocation time. -/
def bumpBetter (t b : Token) : Prop :=
  t.priority_score < b.priority_score ∨
    (t.priority_score = b.priority_score ∧ b.allocated_at < t.allocated_at)

instance : DecidableRel bumpBetter := fun t b => by
  unfold bumpBetter; infer_instance

/-- Victim selection of `_reallocate_lowest_priority`:
`ORDER BY priority_score ASC, allocated_at DESC LIMIT 1`, modelled as the
first row minimal in that key. -/
def selectBumpVictim (s : EngineState) (slot_id : Nat) : Option Token :=
  (s.tokens.filter (fun t => decide (bumpCandidate t slot_id))).foldl
    (minByStep bumpBetter) none

/-- `_reallocate_lowest_priority` (engine lines 358-393). -/
def reallocate_lowest_priority (s : EngineState) (slot_id : Nat) :
    EngineState × Except EngineError Bool :=
  match selectBumpVictim s slot_id with
  | none => (s, Except.ok false)
  | some victim =>
    match getSlotWithValidation s slot_id with
    | Except.error e => (s, Except.error e)
    | Except.ok slot =>
      match find_alternative_slot s victim.doctor_id slot.date with
      | some alt =>
        match reallocate_token s victim.id alt.id
            (some "Auto-reallocation for emergency insertion") with
        | (s1, Except.ok _) => (s1, Except.ok true)
        | (s1, Except.error e) => (s1, Except.error e)
      | none => (s, Except.ok false)

/-- `handle_emergency_insertion` (engine lines 182-214).  When the slot is
full and `force` is false, one bump round is attempted and failure to bump
raises (the inner `if force: pass` arm is dead code, since that branch
runs only when `force` is false).  When `force` is true the guard is
skipped entirely and the request goes straight to `allocate_token`, whose
own capacity check still applies.  The source of the request is forced to
`PRIORITY` and the created token is annotated as an emergency
insertion.  When the inner allocation's flush violates the token-number
unique constraint, the resulting `IntegrityError` aborts the whole
request transaction, so the bump's pending reallocation is discarded
along with the insertion; the engine's own `ValueError` raises, by
contrast, leave a live session whose pending mutations stand. -/
def handle_emergency_insertion (s : EngineState) (req : TokenRequest) (force : Bool) :
    EngineState × Except EngineError Token :=
  match getSlotWithValidation s req.slot_id with
  | Except.error e => (s, Except.error e)
  | Except.ok slot =>
    let step : EngineState × Except EngineError Unit :=
      if slot.max_capacity ≤ slot.current_count ∧ force = false then
        match reallocate_lowest_priority s slot.id with
        | (s1, Except.error e) => (s1, Except.error e)
        | (s1, Except.ok true) => (s1, Except.ok ())
        | (s1, Except.ok false) => (s1, Except.error EngineError.emergencyNotPossible)
      else (s, Except.ok ())
    match step with
    | (s1, Except.error e) => (s1, Except.error e)
    | (s1, Except.ok _) =>
      let req1 : TokenRequest := { req with source := TokenSource.priority }
      match allocate_token s1 req1 with
      | (s2, Except.error e) =>
        match e with
        | EngineError.integrityError n => (s, Except.error (EngineError.integrityError n))
        | _ => (s2, Except.error e)
      | (s2, Except.ok token) =>
        let token1 : Token := { token with notes := token.notes ++ ["EMERGENCY INSERTION"] }
        let s3 := updateToken s2 token.id
          (fun t => { t with notes := t.notes ++ ["EMERGENCY INSERTION"] })
        (s3, Except.ok token1)

/-- Externally triggered mutating operations of the engine, plus a clock
step (the wall clock `datetime.utcnow()` advancing between calls). -/
inductive Op where
  | alloc (req : TokenRequest)
  | cancel (token_id : Nat) (reason : Option String)
  | noshow (token_id : Nat)
  | realloc (token_id new_slot_id : Nat) (reason : Option String)
  | emergency (req : TokenRequest) (force : Bool)
  | tick (t : Nat)

/-- State reached after one operation (the raised error, if any, is
reported to the caller and the session state stands as returned). -/
def applyOp (s : EngineState) : Op → EngineState
  | Op.alloc req => (allocate_token s req).1
  | Op.cancel tid r => (cancel_token s tid r).1
  | Op.noshow tid => (mark_no_show s tid).1
  | Op.realloc tid nsid r => (reallocate_token s tid nsid r).1
  | Op.emergency req f => (handle_emergency_insertion s req f).1
  | Op.tick t => { s with now := t }

/-- State reached after a sequence of operations. -/
def applyOps (s : EngineState) (ops : List Op) : EngineState :=
  ops.foldl applyOp s

/-- A state of the running system: reached from a state with no tokens
yet (slots are created administratively) by engine operations. -/
def Reachable (s : EngineState) : Prop :=
  ∃ s0 ops, s0.tokens = [] ∧ s = applyOps s0 ops

/-- Slot-table well-formedness: primary keys are unique. -/
def SlotIdsNodup (s : EngineState) : Prop :=
  (s.slots.map (fun sl => sl.id)).Nodup

/-- The capacity invariant of the spec: no slot is over capacity. -/
def CapacityInv (s : EngineState) : Prop :=
  ∀ sl ∈ s.slots, sl.current_count ≤ sl.max_capacity

/-- Every slot has capacity at least 1 (`schemas.TimeSlotBase`
validates `max_capacity ≥ 1`). -/
def CapacityPositive (s : EngineState) : Prop :=
  ∀ sl ∈ s.slots, 1 ≤ sl.max_capacity

/-- The sequence numbers of the occupying tokens of a slot, in token
table order. -/
def seqsOf (l : List Token) (slot_id : Nat) : List Nat :=
  (l.filter (fun t => decide (t.slot_id = slot_id ∧ occupying t.status))).map
    (fun t => t.sequence_number)

/-- Token-table well-formedness maintained by the engine: primary keys
are below the autoincrement counter and unique, and within each slot the
occupying tokens carry pairwise distinct sequence numbers. -/
def TokensWF (s : EngineState) : Prop :=
  (∀ t ∈ s.tokens, t.id < s.next_token_id) ∧
  (s.tokens.map (fun t => t.id)).Nodup ∧
  ∀ slot_id : Nat, (seqsOf s.tokens slot_id).Nodup

/-- Whether an engine result is a success. -/
def isOkResult {α : Type} : Except EngineError α → Bool
  | Except.ok _ => true
  | Except.error _ => false

/-- The ordinal the spec prescribes for a token number: one plus the
number of tokens of the doctor whose slot is on the given date
(`count of tokens already allocated to that resource on that date, +1`).
Modelled from the spec for comparison with `generate_token_number`. -/
def specDateOrdinal (s : EngineState) (doctor_id date : Nat) : Nat :=
  (s.tokens.filter (fun t =>
    decide (t.doctor_id = doctor_id ∧ (findSlot s t.slot_id).map TimeSlot.date = some date))).length + 1

/-- Concrete data: a capacity-1 active slot of doctor 1 on day 0. -/
def ex1_slot : TimeSlot :=
  { id := 1, doctor_id := 1, date := 0, start_time := 0, end_time := 10,
    max_capacity := 1, current_count := 0, is_active := true }

/-- Concrete data: a walk-in request for slot 1 of doctor 1. -/
def ex1_reqA : TokenRequest :=
  { patient_name := "Asha", patient_phone := "100", doctor_id := 1, slot_id := 1,
    source := TokenSource.walk_in, notes := [] }

/-- Concrete data: an emergency request for slot 1 of doctor 1. -/
def ex1_reqC : TokenRequest :=
  { patient_name := "Cyra", patient_phone := "102", doctor_id := 1, slot_id := 1,
    source := TokenSource.priority, notes := [] }

/-- Concrete data: the capacity-1 slot filled by one walk-in allocation
(`current_count = 1 = max_capacity`), with no alternative slot. -/
def ex1_state : EngineState :=
  applyOps { slots := [ex1_slot], tokens := [], next_token_id := 0, now := 0 }
    [Op.alloc ex1_reqA]

/-- Concrete data: a capacity-2 active slot of doctor 1 on day 0. -/
def ex2_slot : TimeSlot :=
  { id := 1, doctor_id := 1, date := 0, start_time := 0, end_time := 10,
    max_capacity := 2, current_count := 0, is_active := true }

/-- Concrete data: a second walk-in request for slot 1. -/
def ex2_reqB : TokenRequest :=
  { patient_name := "Bela", patient_phone := "101", doctor_id := 1, slot_id := 1,
    source := TokenSource.walk_in, notes := [] }

/-- Concrete data: two walk-ins allocated into the capacity-2 slot, then
token 0 marked no-show (releasing its capacity once):
`current_count = 1` and token 0 is in the terminal status `no_show`. -/
def ex2_state : EngineState :=
  applyOps { slots := [ex2_slot], tokens := [], next_token_id := 0, now := 0 }
    [Op.alloc ex1_reqA, Op.alloc ex2_reqB, Op.noshow 0]

/-- Concrete data: a second capacity-1 active slot of doctor 1 on day 0,
later in the day. -/
def ex4_slot2 : TimeSlot :=
  { id := 2, doctor_id := 1, date := 0, start_time := 20, end_time := 30,
    max_capacity := 1, current_count := 0, is_active := true }

/-- Concrete data: token 0 allocated into slot 1, marked no-show, and
then also cancelled (the engine accepts the cancel, see the C2 theorem),
leaving `current_count = 0` on slot 1 while token 0 still references
it. -/
def ex4_state : EngineState :=
  applyOps { slots := [ex1_slot, ex4_slot2], tokens := [], next_token_id := 0, now := 0 }
    [Op.alloc ex1_reqA, Op.noshow 0, Op.cancel 0 none]

/-- Concrete data: token 0 allocated into slot 1 of two sibling capacity-1
slots (a well-formed state for a successful reallocation). -/
def ex4_wstate : EngineState :=
  applyOps { slots := [ex1_slot, ex4_slot2], tokens := [], next_token_id := 0, now := 0 }
    [Op.alloc ex1_reqA]

/-- Concrete data: a capacity-1 slot of doctor 1 on day 6. -/
def ex6_slot1 : TimeSlot :=
  { id := 1, doctor_id := 1, date := 6, start_time := 0, end_time := 10,
    max_capacity := 1, current_count := 0, is_active := true }

/-- Concrete data: a capacity-1 slot of doctor 1 on day 5. -/
def ex6_slot2 : TimeSlot :=
  { id := 2, doctor_id := 1, date := 5, start_time := 20, end_time := 30,
    max_capacity := 1, current_count := 0, is_active := true }

/-- Concrete data: a walk-in request for slot 2 (the day-5 slot). -/
def ex6_reqB : TokenRequest :=
  { patient_name := "Bela", patient_phone := "101", doctor_id := 1, slot_id := 2,
    source := TokenSource.walk_in, notes := [] }

/-- Concrete data: one token booked at midnight of day 5 into doctor 1's
slot of day 6 (a day-6 advance booking made on day 5). -/
def ex6_state : EngineState :=
  applyOps { slots := [ex6_slot1, ex6_slot2], tokens := [], next_token_id := 0,
             now := dateStart 5 }
    [Op.alloc ex1_reqA]

/-- Concrete data: a capacity-1 slot of doctor 1 on day 5. -/
def ex7b_slot1 : TimeSlot :=
  { id := 1, doctor_id := 1, date := 5, start_time := 0, end_time := 10,
    max_capacity := 1, current_count := 0, is_active := true }

/-- Concrete data: doctor 1's day-5 slot filled by a walk-in booked in
advance (at clock 0, before midnight of day 5, number (1, 5, 1)), with a
free sibling day-5 slot as bump target. -/
def ex7b_state : EngineState :=
  applyOps { slots := [ex7b_slot1, ex6_slot2], tokens := [], next_token_id := 0, now := 0 }
    [Op.alloc ex1_reqA]

/-- Concrete data: a capacity-3 slot holding two walk-in allocations (a
reachable state with a two-element queue). -/
def ex8_state : EngineState :=
  applyOps
    { slots := [{ id := 1, doctor_id := 1, date := 0, start_time := 0, end_time := 10,
                  max_capacity := 3, current_count := 0, is_active := true }],
      tokens := [], next_token_id := 0, now := 0 }
    [Op.alloc ex1_reqA, Op.alloc ex2_reqB]

/-- Concrete data: a slot owned by doctor 2. -/
def ex10_slot : TimeSlot :=
  { id := 1, doctor_id := 2, date := 0, start_time := 0, end_time := 10,
    max_capacity := 5, current_count := 0, is_active := true }

/-- Concrete data: a request naming doctor 1 but targeting doctor 2's
slot. -/
def ex10_req : TokenRequest :=
  { patient_name := "Asha", patient_phone := "100", doctor_id := 1, slot_id := 1,
    source := TokenSource.online, notes := [] }

/-- Concrete data: state with doctor 2's slot only. -/
def ex10_state : EngineState :=
  { slots := [ex10_slot], tokens := [], next_token_id := 0, now := 0 }

/-- Concrete data: a roomy slot of doctor 2 on day 5. -/
def ex10_slotB : TimeSlot :=
  { id := 1, doctor_id := 2, date := 5, start_time := 0, end_time := 10,
    max_capacity := 5, current_count := 0, is_active := true }

/-- Concrete data: doctor 2's own walk-in request for that slot. -/
def ex10_reqOwn : TokenRequest :=
  { patient_name := "Omar", patient_phone := "103", doctor_id := 2, slot_id := 1,
    source := TokenSource.walk_in, notes := [] }

/-- Concrete data: doctor 2's day-5 slot holding one token booked in
advance (at clock 0, before midnight of day 5) with number
(2, 5, 1). -/
def ex10_dupstate : EngineState :=
  applyOps { slots := [ex10_slotB], tokens := [], next_token_id := 0, now := 0 }
    [Op.alloc ex10_reqOwn]

theorem slots_updateToken (s : EngineState) (tid : Nat) (f : Token → Token) :
    (updateToken s tid f).slots = s.slots := rfl

theorem slots_resequence (s : EngineState) (i : Nat) :
    (resequence_slot_tokens s i).slots = s.slots := rfl

theorem tokens_updateSlot (s : EngineState) (i : Nat) (f : TimeSlot → TimeSlot) :
    (updateSlot s i f).tokens = s.tokens := rfl

theorem next_id_updateSlot (s : EngineState) (i : Nat) (f : TimeSlot → TimeSlot) :
    (updateSlot s i f).next_token_id = s.next_token_id := rfl

theorem next_id_updateToken (s : EngineState) (tid : Nat) (f : Token → Token) :
    (updateToken s tid f).next_token_id = s.next_token_id := rfl

theorem next_id_resequence (s : EngineState) (i : Nat) :
    (resequence_slot_tokens s i).next_token_id = s.next_token_id := rfl

theorem findSlot_eq_some {s : EngineState} {i : Nat} {sl : TimeSlot}
    (h : findSlot s i = some sl) : sl ∈ s.slots ∧ sl.id = i := by
  unfold findSlot at h
  refine ⟨List.mem_of_find?_eq_some h, ?_⟩
  have hp := List.find?_some h
  simpa using hp

theorem findToken_eq_some {s : EngineState} {i : Nat} {t : Token}
    (h : findToken s i = some t) : t ∈ s.tokens ∧ t.id = i := by
  unfold findToken at h
  refine ⟨List.mem_of_find?_eq_some h, ?_⟩
  have hp := List.find?_some h
  simpa using hp

theorem findSlot_unique {s : EngineState} (hn : SlotIdsNodup s) {i : Nat}
    {sl sl2 : TimeSlot} (h : findSlot s i = some sl) (h2 : sl2 ∈ s.slots)
    (hid2 : sl2.id = i) : sl2 = sl := by
  obtain ⟨hm, hi⟩ := findSlot_eq_some h
  exact List.inj_on_of_nodup_map hn h2 hm (hid2.trans hi.symm)

theorem getSlot_ok {s : EngineState} {i : Nat} {sl : TimeSlot}
    (h : getSlotWithValidation s i = Except.ok sl) :
    findSlot s i = some sl ∧ sl.is_active = true := by
  unfold getSlotWithValidation at h
  rcases hf : findSlot s i with _ | sl0 <;> rw [hf] at h
  · exact absurd h (by simp)
  · by_cases ha : sl0.is_active = true <;> simp [ha] at h
    subst h
    exact ⟨rfl, ha⟩

theorem getToken_ok {s : EngineState} {i : Nat} {t : Token}
    (h : getToken s i = Except.ok t) : findToken s i = some t := by
  unfold getToken at h
  rcases hf : findToken s i with _ | t0 <;> rw [hf] at h
  · exact absurd h (by simp)
  · simp at h
    simp [h]

theorem mem_updateSlot {s : EngineState} {i : Nat} {f : TimeSlot → TimeSlot} {sl2 : TimeSlot}
    (h : sl2 ∈ (updateSlot s i f).slots) :
    ∃ sl ∈ s.slots, sl2 = if sl.id = i then f sl else sl := by
  obtain ⟨sl, hm, he⟩ := List.mem_map.mp h
  exact ⟨sl, hm, he.symm⟩

theorem slotIds_updateSlot (s : EngineState) (i : Nat) (f : TimeSlot → TimeSlot)
    (hf : ∀ sl, (f sl).id = sl.id) :
    ((updateSlot s i f).slots.map (fun sl => sl.id)) = s.slots.map (fun sl => sl.id) := by
  show ((s.slots.map fun sl => if sl.id = i then f sl else sl).map (fun sl => sl.id)) = _
  rw [List.map_map]
  apply List.map_congr_left
  intro sl _
  by_cases h : sl.id = i <;> simp [h, hf]

theorem capPos_updateSlot {s : EngineState} {i : Nat} {f : TimeSlot → TimeSlot}
    (hf : ∀ sl, (f sl).max_capacity = sl.max_capacity)
    (h : CapacityPositive s) : CapacityPositive (updateSlot s i f) := by
  intro sl2 hm
  obtain ⟨sl, hmem, he⟩ := mem_updateSlot hm
  by_cases hi : sl.id = i <;> simp [hi] at he <;> rw [he]
  · rw [hf]
    exact h sl hmem
  · exact h sl hmem

theorem capInv_decUpdate {s : EngineState} {i : Nat} (h : CapacityInv s) :
    CapacityInv (updateSlot s i
      (fun sl => { sl with current_count := sl.current_count - 1 })) := by
  intro sl2 hm
  obtain ⟨sl, hmem, he⟩ := mem_updateSlot hm
  by_cases hi : sl.id = i <;> simp [hi] at he <;> rw [he]
  · exact le_trans (Nat.sub_le _ _) (h sl hmem)
  · exact h sl hmem

theorem find_map_congr {α : Type} (g : α → α) (p : α → Bool) (hp : ∀ a, p (g a) = p a) :
    ∀ l : List α, (l.map g).find? p = (l.find? p).map g := by
  intro l
  induction l with
  | nil => rfl
  | cons a l ih =>
    by_cases h : p a = true
    · simp [List.find?_cons_of_pos, h, hp]
    · have h2 : p (g a) = false := by rw [hp]; exact Bool.not_eq_true _ ▸ (by simpa using h)
      rw [List.map_cons, List.find?_cons_of_neg _ (by simp [h2]),
        List.find?_cons_of_neg _ (by simpa using h)]
      exact ih

theorem findSlot_updateSlot (s : EngineState) (j : Nat) (f : TimeSlot → TimeSlot)
    (hf : ∀ sl, (f sl).id = sl.id) (i : Nat) :
    findSlot (updateSlot s j f) i =
      (findSlot s i).map (fun sl => if sl.id = j then f sl else sl) := by
  unfold findSlot updateSlot
  exact find_map_congr _ _ (fun sl => by by_cases h : sl.id = j <;> simp [h, hf]) _

theorem findSlot_updateToken (s : EngineState) (tid : Nat) (f : Token → Token) (i : Nat) :
    findSlot (updateToken s tid f) i = findSlot s i := rfl

theorem findSlot_resequence (s : EngineState) (j i : Nat) :
    findSlot (resequence_slot_tokens s j) i = findSlot s i := rfl

theorem findToken_updateToken (s : EngineState) (tid : Nat) (f : Token → Token)
    (hf : ∀ t, (f t).id = t.id) (i : Nat) :
    findToken (updateToken s tid f) i =
      (findToken s i).map (fun t => if t.id = tid then f t else t) := by
  unfold findToken updateToken
  exact find_map_congr _ _ (fun t => by by_cases h : t.id = tid <;> simp [h, hf]) _

theorem findToken_updateSlot (s : EngineState) (j : Nat) (f : TimeSlot → TimeSlot) (i : Nat) :
    findToken (updateSlot s j f) i = findToken s i := rfl

theorem exists_id_of_findToken {s : EngineState} {i : Nat} {t : Token}
    (h : findToken s i = some t) : ∃ u ∈ s.tokens, u.id = i := by
  obtain ⟨hm, hi⟩ := findToken_eq_some h
  exact ⟨t, hm, hi⟩

theorem findToken_isSome_of_exists {s : EngineState} {i : Nat}
    (h : ∃ u ∈ s.tokens, u.id = i) : ∃ t, findToken s i = some t := by
  obtain ⟨u, hm, hi⟩ := h
  unfold findToken
  rcases hf : s.tokens.find? (fun t => decide (t.id = i)) with _ | t
  · rw [List.find?_eq_none] at hf
    exact absurd (by simpa using hi) (by simpa using hf u hm)
  · exact ⟨t, hf⟩

theorem exists_id_map {l : List Token} {g : Token → Token} (hg : ∀ t, (g t).id = t.id)
    {i : Nat} (h : ∃ t ∈ l, t.id = i) : ∃ t ∈ l.map g, t.id = i := by
  obtain ⟨t, hm, hi⟩ := h
  exact ⟨g t, List.mem_map_of_mem g hm, (hg t).trans hi⟩

theorem tokens_resequence_shape (s : EngineState) (i : Nat) :
    (resequence_slot_tokens s i).tokens =
      s.tokens.map (resequenceUpdate (get_slot_queue s i)) := rfl

theorem except_cases {ε α : Type} (x : Except ε α) :
    (∃ e, x = Except.error e) ∨ (∃ a, x = Except.ok a) := by
  rcases x with e | a
  · exact Or.inl ⟨e, rfl⟩
  · exact Or.inr ⟨a, rfl⟩

theorem option_cases {α : Type} (x : Option α) :
    x = none ∨ ∃ a, x = some a := by
  rcases x with _ | a
  · exact Or.inl rfl
  · exact Or.inr ⟨a, rfl⟩

theorem resequenceUpdate_id (queue : List Token) (t : Token) :
    (resequenceUpdate queue t).id = t.id := by
  unfold resequenceUpdate
  rcases option_cases (queue.findIdx? (fun q : Token => decide (q.id = t.id)))
    with hq | ⟨j, hq⟩ <;> rw [hq]

theorem cancelUpdate_id (now : Nat) (r : Option String) (t : Token) :
    (cancelUpdate now r t).id = t.id := rfl

theorem noShowUpdate_id (now : Nat) (t : Token) :
    (noShowUpdate now t).id = t.id := rfl

theorem reallocUpdate_id (seq : Nat) (r : Option String) (t : Token) :
    (reallocUpdate seq r t).id = t.id := rfl

theorem allocate_error_state {s : EngineState} {req : TokenRequest} {e : EngineError}
    (h : (allocate_token s req).2 = Except.error e) : (allocate_token s req).1 = s := by
  unfold allocate_token at h ⊢
  rcases except_cases (getSlotWithValidation s req.slot_id) with ⟨e0, hg⟩ | ⟨slot, hg⟩
  · rw [hg]
  · rw [hg] at h ⊢
    dsimp only at h ⊢
    by_cases hcap : slot.max_capacity ≤ slot.current_count
    · rw [if_pos hcap]
      rcases option_cases (find_alternative_slot s req.doctor_id slot.date)
        with ha | ⟨alt, ha⟩ <;> rw [ha]
    · rw [if_neg hcap] at h ⊢
      by_cases hdup : s.tokens.any (fun t => decide (t.token_number =
          generate_token_number s slot.doctor_id slot.date)) = true
      · rw [if_pos hdup]
      · rw [if_neg hdup] at h
        exact absurd h (by simp)

theorem allocate_ok_state {s : EngineState} {req : TokenRequest} {tok : Token}
    (h : (allocate_token s req).2 = Except.ok tok) :
    ∃ slot, getSlotWithValidation s req.slot_id = Except.ok slot ∧
      slot.current_count < slot.max_capacity ∧ slot.id = req.slot_id ∧
      tok = { id := s.next_token_id,
              token_number := generate_token_number s slot.doctor_id slot.date,
              patient_name := req.patient_name, patient_phone := req.patient_phone,
              doctor_id := req.doctor_id, slot_id := req.slot_id, source := req.source,
              status := TokenStatus.allocated,
              priority_score := calculate_priority_score req.source slot.current_count,
              sequence_number := get_next_sequence_number s req.slot_id,
              allocated_at := s.now, checked_in_at := none,
              consultation_started_at := none, completed_at := none,
              notes := req.notes } ∧
      (allocate_token s req).1 =
        updateSlot { s with tokens := s.tokens ++ [tok],
                            next_token_id := s.next_token_id + 1 }
          req.slot_id (fun sl => { sl with current_count := sl.current_count + 1 }) ∧
      ∀ t ∈ s.tokens, ¬ t.token_number = tok.token_number := by
  unfold allocate_token at h ⊢
  rcases except_cases (getSlotWithValidation s req.slot_id) with ⟨e0, hg⟩ | ⟨slot, hg⟩ <;>
    rw [hg] at h ⊢ <;> dsimp only at h ⊢
  · exact absurd h (by simp)
  · by_cases hcap : slot.max_capacity ≤ slot.current_count
    · rw [if_pos hcap] at h
      rcases option_cases (find_alternative_slot s req.doctor_id slot.date)
        with ha | ⟨alt, ha⟩ <;> rw [ha] at h <;> exact absurd h (by simp)
    · rw [if_neg hcap] at h ⊢
      by_cases hdup : s.tokens.any (fun t => decide (t.token_number =
          generate_token_number s slot.doctor_id slot.date)) = true
      · rw [if_pos hdup] at h
        exact absurd h (by simp)
      · rw [if_neg hdup] at h ⊢
        simp only [Except.ok.injEq] at h
        obtain ⟨hmem, hid⟩ := findSlot_eq_some (getSlot_ok hg).1
        have hfresh : ∀ t ∈ s.tokens, ¬ t.token_number = tok.token_number := by
          intro t ht
          rw [← h]
          intro heq
          exact hdup (List.any_eq_true.mpr ⟨t, ht, decide_eq_true heq⟩)
        exact ⟨slot, rfl, Nat.lt_of_not_le hcap, hid, h.symm, by rw [h], hfresh⟩

theorem cancel_error_state {s : EngineState} {tid : Nat} {r : Option String}
    {e : EngineError} (h : (cancel_token s tid r).2 = Except.error e) :
    (cancel_token s tid r).1 = s ∨
    (cancel_token s tid r).1 = updateToken s tid (cancelUpdate s.now r) := by
  unfold cancel_token at h ⊢
  rcases except_cases (getToken s tid) with ⟨e0, hg⟩ | ⟨token, hg⟩
  · simp only [hg]
    exact Or.inl trivial
  · simp only [hg] at h ⊢
    by_cases hst : token.status = TokenStatus.completed ∨ token.status = TokenStatus.cancelled
    · rw [if_pos hst]
      exact Or.inl rfl
    · rw [if_neg hst] at h ⊢
      rcases except_cases (getSlotWithValidation
          (updateToken s tid (cancelUpdate s.now r)) token.slot_id)
        with ⟨e1, hs⟩ | ⟨slot, hs⟩
      · simp only [hs]
        exact Or.inr trivial
      · simp only [hs] at h
        exact absurd h (by simp)

theorem noshow_error_state {s : EngineState} {tid : Nat} {e : EngineError}
    (h : (mark_no_show s tid).2 = Except.error e) :
    (mark_no_show s tid).1 = s ∨
    (mark_no_show s tid).1 = updateToken s tid (noShowUpdate s.now) := by
  unfold mark_no_show at h ⊢
  rcases except_cases (getToken s tid) with ⟨e0, hg⟩ | ⟨token, hg⟩
  · simp only [hg]
    exact Or.inl trivial
  · simp only [hg] at h ⊢
    by_cases hst : token.status ≠ TokenStatus.allocated
    · rw [if_pos hst]
      exact Or.inl rfl
    · rw [if_neg hst] at h ⊢
      rcases except_cases (getSlotWithValidation
          (updateToken s tid (noShowUpdate s.now)) token.slot_id)
        with ⟨e1, hs⟩ | ⟨slot, hs⟩
      · simp only [hs]
        exact Or.inr trivial
      · simp only [hs] at h
        exact absurd h (by simp)

theorem reallocate_error_state {s : EngineState} {tid nsid : Nat} {r : Option String}
    {e : EngineError} (h : (reallocate_token s tid nsid r).2 = Except.error e) :
    (reallocate_token s tid nsid r).1 = s := by
  unfold reallocate_token at h ⊢
  rcases except_cases (getToken s tid) with ⟨e0, hg⟩ | ⟨token, hg⟩
  · simp only [hg]
  · simp only [hg] at h ⊢
    rcases except_cases (getSlotWithValidation s token.slot_id) with ⟨e1, ho⟩ | ⟨old_slot, ho⟩
    · simp only [ho]
    · simp only [ho] at h ⊢
      rcases except_cases (getSlotWithValidation s nsid) with ⟨e2, hn⟩ | ⟨new_slot, hn⟩
      · simp only [hn]
      · simp only [hn] at h ⊢
        by_cases hd : token.doctor_id ≠ new_slot.doctor_id
        · rw [if_pos hd]
        · rw [if_neg hd] at h ⊢
          by_cases hc : new_slot.max_capacity ≤ new_slot.current_count
          · rw [if_pos hc]
          · rw [if_neg hc] at h ⊢
            have hex : ∃ u ∈ s.tokens, u.id = tid :=
              exists_id_of_findToken (getToken_ok hg)
            have h6b : ∃ u ∈ (resequence_slot_tokens (resequence_slot_tokens
                (updateToken (updateToken
                  (updateSlot (updateSlot s old_slot.id
                    (fun sl => { sl with current_count := sl.current_count - 1 }))
                    new_slot.id (fun sl => { sl with current_count := sl.current_count + 1 }))
                  tid (fun t => { t with slot_id := nsid }))
                  tid (reallocUpdate (get_next_sequence_number
                    (updateToken (updateSlot (updateSlot s old_slot.id
                      (fun sl => { sl with current_count := sl.current_count - 1 }))
                      new_slot.id (fun sl => { sl with current_count := sl.current_count + 1 }))
                      tid (fun t => { t with slot_id := nsid })) nsid) r))
                old_slot.id) new_slot.id).tokens, u.id = tid := by
              rw [tokens_resequence_shape, tokens_resequence_shape]
              refine exists_id_map (resequenceUpdate_id _) (exists_id_map (resequenceUpdate_id _) ?_)
              refine exists_id_map ?_ (exists_id_map ?_ hex)
              · intro t
                by_cases ht : t.id = tid <;> simp [reallocUpdate, ht]
              · intro t
                by_cases ht : t.id = tid <;> simp [reallocUpdate, ht]
            obtain ⟨t7, h7⟩ := findToken_isSome_of_exists h6b
            have hg7 : getToken (resequence_slot_tokens (resequence_slot_tokens
                (updateToken (updateToken
                  (updateSlot (updateSlot s old_slot.id
                    (fun sl => { sl with current_count := sl.current_count - 1 }))
                    new_slot.id (fun sl => { sl with current_count := sl.current_count + 1 }))
                  tid (fun t => { t with slot_id := nsid }))
                  tid (reallocUpdate (get_next_sequence_number
                    (updateToken (updateSlot (updateSlot s old_slot.id
                      (fun sl => { sl with current_count := sl.current_count - 1 }))
                      new_slot.id (fun sl => { sl with current_count := sl.current_count + 1 }))
                      tid (fun t => { t with slot_id := nsid })) nsid) r))
                old_slot.id) new_slot.id) tid = Except.ok t7 := by
              unfold getToken
              rw [h7]
            simp only [hg7] at h
            exact absurd h (by simp)

theorem reallocate_ok_state {s : EngineState} {tid nsid : Nat} {r : Option String}
    {tok : Token} (h : (reallocate_token s tid nsid r).2 = Except.ok tok) :
    ∃ token old_slot new_slot,
      getToken s tid = Except.ok token ∧
      getSlotWithValidation s token.slot_id = Except.ok old_slot ∧
      getSlotWithValidation s nsid = Except.ok new_slot ∧
      token.doctor_id = new_slot.doctor_id ∧
      new_slot.current_count < new_slot.max_capacity ∧
      (reallocate_token s tid nsid r).1.slots =
        (s.slots.map (fun sl => if sl.id = old_slot.id
            then { sl with current_count := sl.current_count - 1 } else sl)).map
          (fun sl => if sl.id = new_slot.id
            then { sl with current_count := sl.current_count + 1 } else sl) := by
  unfold reallocate_token at h ⊢
  rcases except_cases (getToken s tid) with ⟨e0, hg⟩ | ⟨token, hg⟩
  · rw [hg] at h
    exact absurd h (by simp)
  · simp only [hg] at h ⊢
    rcases except_cases (getSlotWithValidation s token.slot_id) with ⟨e1, ho⟩ | ⟨old_slot, ho⟩
    · rw [ho] at h
      exact absurd h (by simp)
    · simp only [ho] at h ⊢
      rcases except_cases (getSlotWithValidation s nsid) with ⟨e2, hn⟩ | ⟨new_slot, hn⟩
      · rw [hn] at h
        exact absurd h (by simp)
      · simp only [hn] at h ⊢
        by_cases hd : token.doctor_id ≠ new_slot.doctor_id
        · rw [if_pos hd] at h
          exact absurd h (by simp)
        · rw [if_neg hd] at h ⊢
          by_cases hc : new_slot.max_capacity ≤ new_slot.current_count
          · rw [if_pos hc] at h
            exact absurd h (by simp)
          · rw [if_neg hc] at h ⊢
            rcases except_cases (getToken (resequence_slot_tokens (resequence_slot_tokens
                (updateToken (updateToken
                  (updateSlot (updateSlot s old_slot.id
                    (fun sl => { sl with current_count := sl.current_count - 1 }))
                    new_slot.id (fun sl => { sl with current_count := sl.current_count + 1 }))
                  tid (fun t => { t with slot_id := nsid }))
                  tid (reallocUpdate (get_next_sequence_number
                    (updateToken (updateSlot (updateSlot s old_slot.id
                      (fun sl => { sl with current_count := sl.current_count - 1 }))
                      new_slot.id (fun sl => { sl with current_count := sl.current_count + 1 }))
                      tid (fun t => { t with slot_id := nsid })) nsid) r))
                old_slot.id) new_slot.id) tid) with ⟨e3, h6⟩ | ⟨t6, h6⟩
            · simp only [h6] at h
              exact absurd h (by simp)
            · simp only [h6]
              exact ⟨token, old_slot, new_slot, rfl, ho, rfl, not_not.mp hd,
                Nat.lt_of_not_le hc, rfl⟩

theorem reallocate_cross_doctor_fails {s : EngineState} {tid nsid : Nat} {r : Option String}
    {token : Token} {old_slot new_slot : TimeSlot}
    (ht : getToken s tid = Except.ok token)
    (ho : getSlotWithValidation s token.slot_id = Except.ok old_slot)
    (hn : getSlotWithValidation s nsid = Except.ok new_slot)
    (hd : token.doctor_id ≠ new_slot.doctor_id) :
    (reallocate_token s tid nsid r).2 = Except.error EngineError.differentDoctor := by
  unfold reallocate_token
  simp only [ht, ho, hn]
  rw [if_pos hd]

theorem reallocate_full_fails {s : EngineState} {tid nsid : Nat} {r : Option String}
    {token : Token} {old_slot new_slot : TimeSlot}
    (ht : getToken s tid = Except.ok token)
    (ho : getSlotWithValidation s token.slot_id = Except.ok old_slot)
    (hn : getSlotWithValidation s nsid = Except.ok new_slot)
    (hd : token.doctor_id = new_slot.doctor_id)
    (hc : new_slot.max_capacity ≤ new_slot.current_count) :
    (reallocate_token s tid nsid r).2 =
      Except.error (EngineError.newSlotAtCapacity nsid) := by
  unfold reallocate_token
  simp only [ht, ho, hn]
  rw [if_neg (by simp [hd]), if_pos hc]

theorem findSlot_of_slots_map {s s1 : EngineState} {g : TimeSlot → TimeSlot}
    (hg : ∀ sl, (g sl).id = sl.id) (hs : s1.slots = s.slots.map g) (j : Nat) :
    findSlot s1 j = (findSlot s j).map g := by
  unfold findSlot
  rw [hs]
  exact find_map_congr _ _ (fun sl => by simp [hg]) _

theorem cancel_ok_state {s : EngineState} {tid : Nat} {r : Option String} {tok : Token}
    (h : (cancel_token s tid r).2 = Except.ok tok) :
    ∃ token, getToken s tid = Except.ok token ∧
      ¬(token.status = TokenStatus.completed ∨ token.status = TokenStatus.cancelled) ∧
      tok = cancelUpdate s.now r token ∧
      (∃ slot, getSlotWithValidation (updateToken s tid (cancelUpdate s.now r))
        token.slot_id = Except.ok slot) ∧
      (cancel_token s tid r).1 =
        resequence_slot_tokens
          (updateSlot (updateToken s tid (cancelUpdate s.now r)) token.slot_id
            (fun sl => { sl with current_count := sl.current_count - 1 }))
          token.slot_id := by
  unfold cancel_token at h ⊢
  rcases except_cases (getToken s tid) with ⟨e0, hg⟩ | ⟨token, hg⟩
  · rw [hg] at h
    exact absurd h (by simp)
  · simp only [hg] at h ⊢
    by_cases hst : token.status = TokenStatus.completed ∨ token.status = TokenStatus.cancelled
    · rw [if_pos hst] at h
      exact absurd h (by simp)
    · rw [if_neg hst] at h ⊢
      rcases except_cases (getSlotWithValidation
          (updateToken s tid (cancelUpdate s.now r)) token.slot_id)
        with ⟨e1, hs⟩ | ⟨slot, hs⟩
      · simp only [hs] at h
        exact absurd h (by simp)
      · simp only [hs] at h ⊢
        simp only [Except.ok.injEq] at h
        exact ⟨token, rfl, hst, h.symm, ⟨slot, hs⟩, rfl⟩

theorem noshow_ok_state {s : EngineState} {tid : Nat} {tok : Token}
    (h : (mark_no_show s tid).2 = Except.ok tok) :
    ∃ token, getToken s tid = Except.ok token ∧
      token.status = TokenStatus.allocated ∧
      tok = noShowUpdate s.now token ∧
      (∃ slot, getSlotWithValidation (updateToken s tid (noShowUpdate s.now))
        token.slot_id = Except.ok slot) ∧
      (mark_no_show s tid).1 =
        updateSlot (updateToken s tid (noShowUpdate s.now)) token.slot_id
          (fun sl => { sl with current_count := sl.current_count - 1 }) := by
  unfold mark_no_show at h ⊢
  rcases except_cases (getToken s tid) with ⟨e0, hg⟩ | ⟨token, hg⟩
  · rw [hg] at h
    exact absurd h (by simp)
  · simp only [hg] at h ⊢
    by_cases hst : token.status ≠ TokenStatus.allocated
    · rw [if_pos hst] at h
      exact absurd h (by simp)
    · rw [if_neg hst] at h ⊢
      rcases except_cases (getSlotWithValidation
          (updateToken s tid (noShowUpdate s.now)) token.slot_id)
        with ⟨e1, hs⟩ | ⟨slot, hs⟩
      · simp only [hs] at h
        exact absurd h (by simp)
      · simp only [hs] at h ⊢
        simp only [Except.ok.injEq] at h
        exact ⟨token, rfl, not_not.mp hst, h.symm, ⟨slot, hs⟩, rfl⟩

theorem bump_state_cases (s : EngineState) (slot_id : Nat) :
    (reallocate_lowest_priority s slot_id).1 = s ∨
    ∃ tid nsid, (reallocate_lowest_priority s slot_id).1 =
      (reallocate_token s tid nsid (some "Auto-reallocation for emergency insertion")).1 := by
  unfold reallocate_lowest_priority
  rcases option_cases (selectBumpVictim s slot_id) with hv | ⟨victim, hv⟩
  · rw [hv]
    exact Or.inl rfl
  · simp only [hv]
    rcases except_cases (getSlotWithValidation s slot_id) with ⟨e0, hs⟩ | ⟨slot, hs⟩
    · simp only [hs]
      exact Or.inl trivial
    · simp only [hs]
      rcases option_cases (find_alternative_slot s victim.doctor_id slot.date)
        with ha | ⟨alt, ha⟩
      · rw [ha]
        exact Or.inl rfl
      · rw [ha]
        rcases hre : reallocate_token s victim.id alt.id
            (some "Auto-reallocation for emergency insertion") with ⟨s1, r1⟩
        simp only [hre]
        rcases r1 with e1 | tk
        · exact Or.inr ⟨victim.id, alt.id, by rw [hre]⟩
        · exact Or.inr ⟨victim.id, alt.id, by rw [hre]⟩

theorem emergency_shape (s : EngineState) (req : TokenRequest) (force : Bool) :
    ∃ s1, ((s1 = s) ∨ ∃ slot_id, s1 = (reallocate_lowest_priority s slot_id).1) ∧
      ((handle_emergency_insertion s req force).1 = s1 ∨
       ∃ tok, (allocate_token s1 { req with source := TokenSource.priority }).2 =
           Except.ok tok ∧
         (handle_emergency_insertion s req force).1 =
           updateToken (allocate_token s1 { req with source := TokenSource.priority }).1
             tok.id (fun t => { t with notes := t.notes ++ ["EMERGENCY INSERTION"] })) := by
  unfold handle_emergency_insertion
  rcases except_cases (getSlotWithValidation s req.slot_id) with ⟨e0, hs⟩ | ⟨slot, hs⟩
  · rw [hs]
    exact ⟨s, Or.inl rfl, Or.inl rfl⟩
  · simp only [hs]
    by_cases hfull : slot.max_capacity ≤ slot.current_count ∧ force = false
    · rw [if_pos hfull]
      rcases hb : reallocate_lowest_priority s slot.id with ⟨s1, rb⟩
      have hs1 : s1 = (reallocate_lowest_priority s slot.id).1 := by rw [hb]
      rcases rb with e1 | b
      · exact ⟨s1, Or.inr ⟨slot.id, hs1⟩, Or.inl rfl⟩
      · rcases b with _ | _
        · exact ⟨s1, Or.inr ⟨slot.id, hs1⟩, Or.inl rfl⟩
        · rcases hae : allocate_token s1 { req with source := TokenSource.priority }
            with ⟨s2, ra⟩
          simp only [hae]
          rcases ra with e2 | tok
          · have h1 : (allocate_token s1 { req with source := TokenSource.priority }).2 =
                Except.error e2 := by rw [hae]
            have h2 := allocate_error_state h1
            rw [hae] at h2
            cases e2 <;>
              first
                | exact ⟨s1, Or.inr ⟨slot.id, hs1⟩, Or.inl h2⟩
                | exact ⟨s, Or.inl rfl, Or.inl rfl⟩
          · exact ⟨s1, Or.inr ⟨slot.id, hs1⟩, Or.inr ⟨tok, by rw [hae], by rw [hae]⟩⟩
    · rw [if_neg hfull]
      refine ⟨s, Or.inl rfl, ?_⟩
      rcases hae : allocate_token s { req with source := TokenSource.priority }
        with ⟨s2, ra⟩
      simp only [hae]
      rcases ra with e2 | tok
      · have h1 : (allocate_token s { req with source := TokenSource.priority }).2 =
            Except.error e2 := by rw [hae]
        have h2 := allocate_error_state h1
        rw [hae] at h2
        cases e2 <;>
          first
            | exact Or.inl h2
            | exact Or.inl rfl
      · exact Or.inr ⟨tok, rfl, rfl⟩

theorem realloc_slots_g_id (a b : Nat) (sl : TimeSlot) :
    (((fun sl2 : TimeSlot => if sl2.id = b
        then { sl2 with current_count := sl2.current_count + 1 } else sl2) ∘
      (fun sl2 : TimeSlot => if sl2.id = a
        then { sl2 with current_count := sl2.current_count - 1 } else sl2)) sl).id = sl.id := by
  dsimp only [Function.comp]
  by_cases h1 : sl.id = a
  · rw [if_pos h1]
    by_cases h2 : sl.id = b
    · rw [if_pos (show ({ sl with current_count := sl.current_count - 1 } : TimeSlot).id = b from h2)]
    · rw [if_neg (show ¬({ sl with current_count := sl.current_count - 1 } : TimeSlot).id = b from h2)]
  · rw [if_neg h1]
    by_cases h2 : sl.id = b
    · rw [if_pos h2]
    · rw [if_neg h2]

theorem nodup_of_ids_eq {s s1 : EngineState}
    (h : s1.slots.map (fun sl => sl.id) = s.slots.map (fun sl => sl.id))
    (hn : SlotIdsNodup s) : SlotIdsNodup s1 := by
  unfold SlotIdsNodup at *
  rw [h]
  exact hn

theorem alloc_slot_ids (s : EngineState) (req : TokenRequest) :
    (allocate_token s req).1.slots.map (fun sl => sl.id) =
      s.slots.map (fun sl => sl.id) := by
  rcases except_cases (allocate_token s req).2 with ⟨e, he⟩ | ⟨tok, hok⟩
  · rw [allocate_error_state he]
  · obtain ⟨slot, hg, hcap, hid, htok, hstate, hfr⟩ := allocate_ok_state hok
    rw [hstate]
    exact slotIds_updateSlot _ _ _ (fun sl => rfl)

theorem cancel_slot_ids (s : EngineState) (tid : Nat) (r : Option String) :
    (cancel_token s tid r).1.slots.map (fun sl => sl.id) =
      s.slots.map (fun sl => sl.id) := by
  rcases except_cases (cancel_token s tid r).2 with ⟨e, he⟩ | ⟨tok, hok⟩
  · rcases cancel_error_state he with h | h
    · rw [h]
    · rw [h]
      rfl
  · obtain ⟨token, ht, hst, htok, ⟨slot, hs⟩, hstate⟩ := cancel_ok_state hok
    rw [hstate, slots_resequence]
    exact slotIds_updateSlot _ _ _ (fun sl => rfl)

theorem noshow_slot_ids (s : EngineState) (tid : Nat) :
    (mark_no_show s tid).1.slots.map (fun sl => sl.id) =
      s.slots.map (fun sl => sl.id) := by
  rcases except_cases (mark_no_show s tid).2 with ⟨e, he⟩ | ⟨tok, hok⟩
  · rcases noshow_error_state he with h | h
    · rw [h]
    · rw [h]
      rfl
  · obtain ⟨token, ht, hst, htok, ⟨slot, hs⟩, hstate⟩ := noshow_ok_state hok
    rw [hstate]
    exact slotIds_updateSlot _ _ _ (fun sl => rfl)

theorem realloc_slot_ids (s : EngineState) (tid nsid : Nat) (r : Option String) :
    (reallocate_token s tid nsid r).1.slots.map (fun sl => sl.id) =
      s.slots.map (fun sl => sl.id) := by
  rcases except_cases (reallocate_token s tid nsid r).2 with ⟨e, he⟩ | ⟨tok, hok⟩
  · rw [reallocate_error_state he]
  · obtain ⟨token, old_slot, new_slot, ht, ho, hnew, hdoc, hcap, hslots⟩ :=
      reallocate_ok_state hok
    rw [hslots, List.map_map, List.map_map]
    exact List.map_congr_left (fun sl _ => realloc_slots_g_id old_slot.id new_slot.id sl)

theorem bump_slot_ids (s : EngineState) (slot_id : Nat) :
    (reallocate_lowest_priority s slot_id).1.slots.map (fun sl => sl.id) =
      s.slots.map (fun sl => sl.id) := by
  rcases bump_state_cases s slot_id with h | ⟨tid, nsid, h⟩
  · rw [h]
  · rw [h]
    exact realloc_slot_ids s tid nsid _

theorem emergency_slot_ids (s : EngineState) (req : TokenRequest) (force : Bool) :
    (handle_emergency_insertion s req force).1.slots.map (fun sl => sl.id) =
      s.slots.map (fun sl => sl.id) := by
  obtain ⟨s1, hs1, hfin⟩ := emergency_shape s req force
  have hids1 : s1.slots.map (fun sl => sl.id) = s.slots.map (fun sl => sl.id) := by
    rcases hs1 with h | ⟨slot_id, h⟩
    · rw [h]
    · rw [h]
      exact bump_slot_ids s slot_id
  rcases hfin with h | ⟨tok, ha, h⟩
  · rw [h]
    exact hids1
  · rw [h]
    have : (updateToken (allocate_token s1
        { req with source := TokenSource.priority }).1 tok.id
        (fun t => { t with notes := t.notes ++ ["EMERGENCY INSERTION"] })).slots =
        (allocate_token s1 { req with source := TokenSource.priority }).1.slots := rfl
    rw [this, alloc_slot_ids]
    exact hids1

theorem alloc_capInv {s : EngineState} {req : TokenRequest}
    (hn : SlotIdsNodup s) (hc : CapacityInv s) :
    CapacityInv (allocate_token s req).1 := by
  rcases except_cases (allocate_token s req).2 with ⟨e, he⟩ | ⟨tok, hok⟩
  · rw [allocate_error_state he]
    exact hc
  · obtain ⟨slot, hg, hcap, hid, htok, hstate, hfr⟩ := allocate_ok_state hok
    rw [hstate]
    intro sl2 hm
    obtain ⟨sl0, hmem, he⟩ := mem_updateSlot hm
    by_cases hi : sl0.id = req.slot_id
    · rw [if_pos hi] at he
      have heq : sl0 = slot := findSlot_unique hn (getSlot_ok hg).1 hmem hi
      rw [he, heq]
      exact hcap
    · rw [if_neg hi] at he
      rw [he]
      exact hc sl0 hmem

theorem cancel_capInv {s : EngineState} {tid : Nat} {r : Option String}
    (hc : CapacityInv s) : CapacityInv (cancel_token s tid r).1 := by
  rcases except_cases (cancel_token s tid r).2 with ⟨e, he⟩ | ⟨tok, hok⟩
  · rcases cancel_error_state he with h | h <;> rw [h]
    · exact hc
    · exact hc
  · obtain ⟨token, ht, hst, htok, ⟨slot, hs⟩, hstate⟩ := cancel_ok_state hok
    rw [hstate]
    intro sl2 hm
    rw [slots_resequence] at hm
    obtain ⟨sl0, hmem, he⟩ := mem_updateSlot hm
    by_cases hi : sl0.id = token.slot_id <;> simp only [hi, if_true, if_false] at he <;>
      rw [he]
    · exact le_trans (Nat.sub_le _ _) (hc sl0 hmem)
    · exact hc sl0 hmem

theorem noshow_capInv {s : EngineState} {tid : Nat}
    (hc : CapacityInv s) : CapacityInv (mark_no_show s tid).1 := by
  rcases except_cases (mark_no_show s tid).2 with ⟨e, he⟩ | ⟨tok, hok⟩
  · rcases noshow_error_state he with h | h <;> rw [h]
    · exact hc
    · exact hc
  · obtain ⟨token, ht, hst, htok, ⟨slot, hs⟩, hstate⟩ := noshow_ok_state hok
    rw [hstate]
    intro sl2 hm
    obtain ⟨sl0, hmem, he⟩ := mem_updateSlot hm
    by_cases hi : sl0.id = token.slot_id <;> simp only [hi, if_true, if_false] at he <;>
      rw [he]
    · exact le_trans (Nat.sub_le _ _) (hc sl0 hmem)
    · exact hc sl0 hmem

theorem realloc_capInv {s : EngineState} {tid nsid : Nat} {r : Option String}
    (hn : SlotIdsNodup s) (hc : CapacityInv s) :
    CapacityInv (reallocate_token s tid nsid r).1 := by
  rcases except_cases (reallocate_token s tid nsid r).2 with ⟨e, he⟩ | ⟨tok, hok⟩
  · rw [reallocate_error_state he]
    exact hc
  · obtain ⟨token, old_slot, new_slot, ht, ho, hnew, hdoc, hcap, hslots⟩ :=
      reallocate_ok_state hok
    have hnew_find : findSlot s nsid = some new_slot := (getSlot_ok hnew).1
    have hnew_id : new_slot.id = nsid := (findSlot_eq_some hnew_find).2
    intro sl2 hm
    rw [hslots] at hm
    obtain ⟨sl1, hm1, he1⟩ := List.mem_map.mp hm
    obtain ⟨sl0, hm0, he0⟩ := List.mem_map.mp hm1
    by_cases h2 : sl1.id = new_slot.id
    · rw [if_pos h2] at he1
      have hid1 : sl1.id = sl0.id := by
        rw [← he0]
        by_cases h1 : sl0.id = old_slot.id <;> simp [h1]
      have hsl0 : sl0 = new_slot :=
        findSlot_unique hn hnew_find hm0 (by rw [← hid1, h2, hnew_id])
      have hx : sl0.current_count < sl0.max_capacity := by
        rw [hsl0]
        exact hcap
      by_cases h1 : sl0.id = old_slot.id
      · rw [if_pos h1] at he0
        rw [← he1, ← he0]
        dsimp only
        omega
      · rw [if_neg h1] at he0
        rw [← he1, ← he0]
        dsimp only
        omega
    · rw [if_neg h2] at he1
      by_cases h1 : sl0.id = old_slot.id
      · rw [if_pos h1] at he0
        rw [← he1, ← he0]
        dsimp only
        have hy := hc sl0 hm0
        omega
      · rw [if_neg h1] at he0
        rw [← he1, ← he0]
        exact hc sl0 hm0

theorem bump_capInv {s : EngineState} {slot_id : Nat}
    (hn : SlotIdsNodup s) (hc : CapacityInv s) :
    CapacityInv (reallocate_lowest_priority s slot_id).1 := by
  rcases bump_state_cases s slot_id with h | ⟨tid, nsid, h⟩
  · rw [h]
    exact hc
  · rw [h]
    exact realloc_capInv hn hc

theorem emergency_capInv {s : EngineState} {req : TokenRequest} {force : Bool}
    (hn : SlotIdsNodup s) (hc : CapacityInv s) :
    CapacityInv (handle_emergency_insertion s req force).1 := by
  obtain ⟨s1, hs1, hfin⟩ := emergency_shape s req force
  have hinv1 : SlotIdsNodup s1 ∧ CapacityInv s1 := by
    rcases hs1 with h | ⟨slot_id, h⟩
    · rw [h]
      exact ⟨hn, hc⟩
    · rw [h]
      exact ⟨nodup_of_ids_eq (bump_slot_ids s slot_id) hn, bump_capInv hn hc⟩
  rcases hfin with h | ⟨tok, ha, h⟩
  · rw [h]
    exact hinv1.2
  · rw [h]
    intro sl2 hm
    exact alloc_capInv hinv1.1 hinv1.2 sl2 hm

theorem applyOp_preserves (s : EngineState) (op : Op)
    (hn : SlotIdsNodup s) (hc : CapacityInv s) :
    SlotIdsNodup (applyOp s op) ∧ CapacityInv (applyOp s op) := by
  cases op with
  | alloc req => exact ⟨nodup_of_ids_eq (alloc_slot_ids s req) hn, alloc_capInv hn hc⟩
  | cancel tid r => exact ⟨nodup_of_ids_eq (cancel_slot_ids s tid r) hn, cancel_capInv hc⟩
  | noshow tid => exact ⟨nodup_of_ids_eq (noshow_slot_ids s tid) hn, noshow_capInv hc⟩
  | realloc tid nsid r =>
    exact ⟨nodup_of_ids_eq (realloc_slot_ids s tid nsid r) hn, realloc_capInv hn hc⟩
  | emergency req force =>
    exact ⟨nodup_of_ids_eq (emergency_slot_ids s req force) hn, emergency_capInv hn hc⟩
  | tick t => exact ⟨hn, hc⟩

/-- C1: on an active slot filled to capacity (`current_count = 1 =
max_capacity` after one allocation), emergency insertion with
`force = true` does not succeed and does not push `current_count` to
`max_capacity + 1`: the forced path still goes through `allocate_token`,
whose capacity check raises "at maximum capacity", leaving the state
unchanged.  This contradicts the claim (and the engine's own docstring
"If force=True, allow exceeding capacity by 1"). -/
theorem c1_forced_emergency_insertion_fails :
    (findSlot ex1_state 1).map TimeSlot.current_count = some 1 ∧
    (findSlot ex1_state 1).map TimeSlot.max_capacity = some 1 ∧
    (findSlot ex1_state 1).map TimeSlot.is_active = some true ∧
    handle_emergency_insertion ex1_state ex1_reqC true =
      (ex1_state, Except.error (EngineError.slotAtCapacity 1)) :=
  ⟨rfl, rfl, rfl, rfl⟩

/-- C2: token 0 is in the terminal status `no_show` (its capacity already
released once), yet a subsequent `cancel_token` on it succeeds instead of
failing with an invalid-state error: it moves the token out of the
terminal status to `cancelled` and decrements the slot counter a second
time, so the counter reaches 0 although token 1 still occupies the
slot. -/
theorem c2_cancel_after_no_show_double_release :
    (findToken ex2_state 0).map Token.status = some TokenStatus.no_show ∧
    (findSlot ex2_state 1).map TimeSlot.current_count = some 1 ∧
    isOkResult (cancel_token ex2_state 0 none).2 = true ∧
    (findToken (cancel_token ex2_state 0 none).1 0).map Token.status =
      some TokenStatus.cancelled ∧
    (findToken (cancel_token ex2_state 0 none).1 1).map Token.status =
      some TokenStatus.allocated ∧
    (findSlot (cancel_token ex2_state 0 none).1 1).map TimeSlot.current_count = some 0 :=
  ⟨rfl, rfl, rfl, rfl, rfl, rfl⟩

/-- C6 counterexample: doctor 1 has one token, a day-6 booking allocated
at midnight of day 5, and no token at all on day 5, so the spec formula
(count of tokens already allocated to that resource on that date, plus 1)
gives ordinal 1 for the first day-5 allocation.  The code instead counts
tokens by `allocated_at ≥ midnight(date)` — a timestamp filter with no
upper bound that also catches the day-6 booking — and the allocation
completes with ordinal 2: the persisted number skips the ordinal the
claim prescribes. -/
theorem c6_ordinal_inflated_by_other_date :
    isOkResult (allocate_token ex6_state ex6_reqB).2 = true ∧
    (allocate_token ex6_state ex6_reqB).2.toOption.map Token.token_number =
      some { doctor_id := 1, date := 5, ordinal := 2 } ∧
    specDateOrdinal ex6_state 1 5 = 1 ∧
    (findToken ex6_state 0).map (fun t => t.token_number.date) = some 6 :=
  ⟨rfl, rfl, rfl, rfl⟩

/-- C4 counterexample: a reachable state (allocate, then no-show, then the
cancel the engine wrongly accepts) leaves token 0 attached to slot 1 whose
counter is already 0.  Reallocating token 0 to slot 2 then succeeds, but
the old slot's counter stays at 0 instead of decreasing by exactly 1,
while the new slot's counter increases by 1: total occupied capacity
across the two slots is not preserved (0 + 0 becomes 0 + 1). -/
theorem c4_reallocate_zero_count_not_preserved :
    (findSlot ex4_state 1).map TimeSlot.current_count = some 0 ∧
    (findSlot ex4_state 2).map TimeSlot.current_count = some 0 ∧
    isOkResult (reallocate_token ex4_state 0 2 none).2 = true ∧
    (findSlot (reallocate_token ex4_state 0 2 none).1 1).map TimeSlot.current_count =
      some 0 ∧
    (findSlot (reallocate_token ex4_state 0 2 none).1 2).map TimeSlot.current_count =
      some 1 :=
  ⟨rfl, rfl, rfl, rfl, rfl⟩

/-- C4 (amended): reallocation either fails outright with no effect on
the state (in particular when the target slot belongs to a different
doctor than the token, or the target slot is full), or succeeds, and then
the new slot's counter increases by exactly 1 while the old slot's
counter becomes `current_count - 1` — a decrease by exactly 1 whenever
the old counter was at least 1, but floored at 0 — and every other slot
is untouched. -/
theorem c4_reallocate_amended (s : EngineState) (tid nsid : Nat) (r : Option String) :
    (∀ e, (reallocate_token s tid nsid r).2 = Except.error e →
      (reallocate_token s tid nsid r).1 = s) ∧
    (∀ token old_slot new_slot, getToken s tid = Except.ok token →
      getSlotWithValidation s token.slot_id = Except.ok old_slot →
      getSlotWithValidation s nsid = Except.ok new_slot →
      token.doctor_id ≠ new_slot.doctor_id →
      (reallocate_token s tid nsid r).2 = Except.error EngineError.differentDoctor) ∧
    (∀ token old_slot new_slot, getToken s tid = Except.ok token →
      getSlotWithValidation s token.slot_id = Except.ok old_slot →
      getSlotWithValidation s nsid = Except.ok new_slot →
      token.doctor_id = new_slot.doctor_id →
      new_slot.max_capacity ≤ new_slot.current_count →
      (reallocate_token s tid nsid r).2 =
        Except.error (EngineError.newSlotAtCapacity nsid)) ∧
    (∀ tok, (reallocate_token s tid nsid r).2 = Except.ok tok →
      ∃ token old_slot new_slot,
        getToken s tid = Except.ok token ∧
        getSlotWithValidation s token.slot_id = Except.ok old_slot ∧
        getSlotWithValidation s nsid = Except.ok new_slot ∧
        new_slot.id = nsid ∧
        (old_slot.id ≠ nsid →
          (findSlot (reallocate_token s tid nsid r).1 nsid).map TimeSlot.current_count =
            some (new_slot.current_count + 1) ∧
          (findSlot (reallocate_token s tid nsid r).1 old_slot.id).map
              TimeSlot.current_count = some (old_slot.current_count - 1)) ∧
        (∀ j, j ≠ old_slot.id → j ≠ nsid →
          findSlot (reallocate_token s tid nsid r).1 j = findSlot s j)) := by
  refine ⟨fun e he => reallocate_error_state he,
    fun token old_slot new_slot ht ho hnew hd =>
      reallocate_cross_doctor_fails ht ho hnew hd,
    fun token old_slot new_slot ht ho hnew hd hc =>
      reallocate_full_fails ht ho hnew hd hc,
    fun tok hok => ?_⟩
  obtain ⟨token, old_slot, new_slot, ht, ho, hnew, hdoc, hcap, hslots⟩ :=
    reallocate_ok_state hok
  have hnew_find : findSlot s nsid = some new_slot := (getSlot_ok hnew).1
  have hnew_id : new_slot.id = nsid := (findSlot_eq_some hnew_find).2
  have hold_find0 : findSlot s token.slot_id = some old_slot := (getSlot_ok ho).1
  have hold_id : old_slot.id = token.slot_id := (findSlot_eq_some hold_find0).2
  have hold_find : findSlot s old_slot.id = some old_slot := by rw [hold_id]; exact hold_find0
  have hslots2 : (reallocate_token s tid nsid r).1.slots = s.slots.map
      ((fun sl => if sl.id = new_slot.id
          then { sl with current_count := sl.current_count + 1 } else sl) ∘
        (fun sl => if sl.id = old_slot.id
          then { sl with current_count := sl.current_count - 1 } else sl)) := by
    rw [hslots, List.map_map]
  have hfind : ∀ j, findSlot (reallocate_token s tid nsid r).1 j =
      (findSlot s j).map
        ((fun sl => if sl.id = new_slot.id
            then { sl with current_count := sl.current_count + 1 } else sl) ∘
          (fun sl => if sl.id = old_slot.id
            then { sl with current_count := sl.current_count - 1 } else sl)) := by
    intro j
    exact findSlot_of_slots_map (realloc_slots_g_id old_slot.id new_slot.id) hslots2 j
  refine ⟨token, old_slot, new_slot, ht, ho, hnew, hnew_id, fun hne => ?_, fun j hj1 hj2 => ?_⟩
  · constructor
    · rw [hfind nsid, hnew_find]
      have e1 : ¬ nsid = old_slot.id := fun hq => hne hq.symm
      simp [Function.comp, hnew_id, e1]
    · rw [hfind old_slot.id, hold_find]
      simp [Function.comp, hnew_id, hne]
  · rw [hfind j]
    rcases option_cases (findSlot s j) with hj | ⟨sl, hj⟩ <;> rw [hj]
    · rfl
    · have hid : sl.id = j := (findSlot_eq_some hj).2
      have d1 : ¬ sl.id = old_slot.id := by rw [hid]; exact hj1
      have d2 : ¬ sl.id = nsid := by rw [hid]; exact hj2
      simp [Function.comp, hnew_id, d1, d2]

/-- Witness for C4 at a concrete input: token 0 occupies slot 1
(counter 1); reallocating it to the sibling slot 2 succeeds, and by the
amended theorem slot 2's counter becomes 0 + 1 = 1 while slot 1's counter
becomes 1 - 1 = 0. -/
theorem c4_reallocate_amended_witness :
    (findSlot (reallocate_token ex4_wstate 0 2 none).1 2).map TimeSlot.current_count =
      some 1 ∧
    (findSlot (reallocate_token ex4_wstate 0 2 none).1 1).map TimeSlot.current_count =
      some 0 := by
  obtain ⟨token, old_slot, new_slot, ht, ho, hnew, hnid, hcounts, hother⟩ :=
    (c4_reallocate_amended ex4_wstate 0 2 none).2.2.2 _ rfl
  have h1 : (1 : Nat) = token.slot_id :=
    congrArg (fun x => match x with | Except.ok t => t.slot_id | Except.error _ => 0) ht
  have h2 : old_slot.id = token.slot_id := (findSlot_eq_some (getSlot_ok ho).1).2
  have hne : old_slot.id ≠ 2 := by
    rw [h2, ← h1]
    decide
  obtain ⟨hq1, hq2⟩ := hcounts hne
  have h3 : (0 : Nat) = new_slot.current_count :=
    congrArg (fun x => match x with | Except.ok sl => sl.current_count | Except.error _ => 0)
      hnew
  rw [← h1] at ho
  have h4 : (1 : Nat) = old_slot.current_count :=
    congrArg (fun x => match x with | Except.ok sl => sl.current_count | Except.error _ => 0)
      ho
  constructor
  · rw [hq1, ← h3]
  · rw [h2, ← h1] at hq2
    rw [hq2, ← h4]

/-- C3: for every sequence of engine operations (allocate, cancel,
mark-no-show, reallocate — and even emergency insertions and clock
steps) applied to a well-formed state, every slot satisfies
`0 ≤ current_count ≤ max_capacity` after every operation.  The permitted
transient +1 after a forced emergency insertion never occurs, because the
forced path re-checks capacity inside `allocate_token` and fails instead
of overshooting (see the C1 theorem). -/
theorem c3_capacity_invariant (s : EngineState) (ops : List Op)
    (hn : SlotIdsNodup s)
    (hc : ∀ sl ∈ s.slots, 0 ≤ sl.current_count ∧ sl.current_count ≤ sl.max_capacity) :
    ∀ sl ∈ (applyOps s ops).slots,
      0 ≤ sl.current_count ∧ sl.current_count ≤ sl.max_capacity := by
  have main : ∀ (ops : List Op) (s : EngineState), SlotIdsNodup s → CapacityInv s →
      SlotIdsNodup (applyOps s ops) ∧ CapacityInv (applyOps s ops) := by
    intro ops
    induction ops with
    | nil => exact fun s hn hc => ⟨hn, hc⟩
    | cons op rest ih =>
      intro s hn hc
      have h1 := applyOp_preserves s op hn hc
      exact ih (applyOp s op) h1.1 h1.2
  have h2 := (main ops s hn (fun sl hm => (hc sl hm).2)).2
  exact fun sl hm => ⟨Nat.zero_le _, h2 sl hm⟩

/-- Witness for C3 at a concrete input: starting from one empty
capacity-1 slot, the sequence allocate, no-show, allocate, cancel keeps
the slot's counter within [0, 1]. -/
theorem c3_capacity_invariant_witness :
    SlotIdsNodup { slots := [ex1_slot], tokens := [], next_token_id := 0, now := 0 } ∧
    (∀ sl ∈ (applyOps { slots := [ex1_slot], tokens := [], next_token_id := 0, now := 0 }
        [Op.alloc ex1_reqA, Op.noshow 0, Op.alloc ex1_reqC, Op.cancel 1 none]).slots,
      0 ≤ sl.current_count ∧ sl.current_count ≤ sl.max_capacity) :=
  ⟨by unfold SlotIdsNodup; decide,
   c3_capacity_invariant { slots := [ex1_slot], tokens := [], next_token_id := 0, now := 0 }
     [Op.alloc ex1_reqA, Op.noshow 0, Op.alloc ex1_reqC, Op.cancel 1 none]
     (by unfold SlotIdsNodup; decide) (by decide)⟩

theorem foldl_min_none {α : Type} (R : α → α → Prop) [DecidableRel R] :
    ∀ (l : List α) (acc : Option α),
      l.foldl (minByStep R) acc = none → acc = none ∧ l = [] := by
  intro l
  induction l with
  | nil => exact fun acc h => ⟨h, rfl⟩
  | cons t l ih =>
    intro acc h
    rw [List.foldl_cons] at h
    have h2 := ih _ h
    rcases acc with _ | b
    · exact absurd h2.1 (by simp [minByStep])
    · simp only [minByStep] at h2
      by_cases hb : R t b
      · rw [if_pos hb] at h2
        exact absurd h2.1 (by simp)
      · rw [if_neg hb] at h2
        exact absurd h2.1 (by simp)

theorem find_alternative_none {s : EngineState} {did date : Nat}
    (h : find_alternative_slot s did date = none) :
    ∀ sl ∈ s.slots, ¬ slotAvailable sl did date := by
  unfold find_alternative_slot at h
  have h2 := foldl_min_none earlierStart
    (s.slots.filter (fun sl => decide (slotAvailable sl did date))) none h
  intro sl hms hav
  have : sl ∈ s.slots.filter (fun sl => decide (slotAvailable sl did date)) :=
    List.mem_filter.mpr ⟨hms, by simpa using hav⟩
  rw [h2.2] at this
  exact absurd this (by simp)

theorem bump_error_state {s : EngineState} {slot_id : Nat} {e : EngineError}
    (h : (reallocate_lowest_priority s slot_id).2 = Except.error e) :
    (reallocate_lowest_priority s slot_id).1 = s := by
  unfold reallocate_lowest_priority at h ⊢
  rcases option_cases (selectBumpVictim s slot_id) with hv | ⟨victim, hv⟩
  · rw [hv] at h
    exact absurd h (by simp)
  · simp only [hv] at h ⊢
    rcases except_cases (getSlotWithValidation s slot_id) with ⟨e0, hs⟩ | ⟨slot, hs⟩
    · simp only [hs]
    · simp only [hs] at h ⊢
      rcases option_cases (find_alternative_slot s victim.doctor_id slot.date)
        with ha | ⟨alt, ha⟩
      · simp only [ha] at h
        exact absurd h (by simp)
      · simp only [ha] at h ⊢
        rcases hre : reallocate_token s victim.id alt.id
            (some "Auto-reallocation for emergency insertion") with ⟨s1, r1⟩
        simp only [hre] at h ⊢
        rcases r1 with e1 | tk
        · have : (reallocate_token s victim.id alt.id
              (some "Auto-reallocation for emergency insertion")).2 =
              Except.error e1 := by rw [hre]
          have h2 := reallocate_error_state this
          rw [hre] at h2
          exact h2
        · exact absurd h (by simp)

theorem bump_ok_false_state {s : EngineState} {slot_id : Nat}
    (h : (reallocate_lowest_priority s slot_id).2 = Except.ok false) :
    (reallocate_lowest_priority s slot_id).1 = s := by
  unfold reallocate_lowest_priority at h ⊢
  rcases option_cases (selectBumpVictim s slot_id) with hv | ⟨victim, hv⟩
  · rw [hv]
  · simp only [hv] at h ⊢
    rcases except_cases (getSlotWithValidation s slot_id) with ⟨e0, hs⟩ | ⟨slot, hs⟩
    · simp only [hs] at h
      exact absurd h (by simp)
    · simp only [hs] at h ⊢
      rcases option_cases (find_alternative_slot s victim.doctor_id slot.date)
        with ha | ⟨alt, ha⟩
      · rw [ha]
      · simp only [ha] at h ⊢
        rcases hre : reallocate_token s victim.id alt.id
            (some "Auto-reallocation for emergency insertion") with ⟨s1, r1⟩
        simp only [hre] at h ⊢
        rcases r1 with e1 | tk
        · exact absurd h (by simp)
        · exact absurd h (by simp)

theorem bump_ok_true_state {s : EngineState} {slot_id : Nat}
    (h : (reallocate_lowest_priority s slot_id).2 = Except.ok true) :
    ∃ victim slot alt tk,
      selectBumpVictim s slot_id = some victim ∧
      getSlotWithValidation s slot_id = Except.ok slot ∧
      find_alternative_slot s victim.doctor_id slot.date = some alt ∧
      (reallocate_token s victim.id alt.id
        (some "Auto-reallocation for emergency insertion")).2 = Except.ok tk ∧
      (reallocate_lowest_priority s slot_id).1 =
        (reallocate_token s victim.id alt.id
          (some "Auto-reallocation for emergency insertion")).1 := by
  unfold reallocate_lowest_priority at h ⊢
  rcases option_cases (selectBumpVictim s slot_id) with hv | ⟨victim, hv⟩
  · rw [hv] at h
    exact absurd h (by simp)
  · simp only [hv] at h ⊢
    rcases except_cases (getSlotWithValidation s slot_id) with ⟨e0, hs⟩ | ⟨slot, hs⟩
    · simp only [hs] at h
      exact absurd h (by simp)
    · simp only [hs] at h ⊢
      rcases option_cases (find_alternative_slot s victim.doctor_id slot.date)
        with ha | ⟨alt, ha⟩
      · simp only [ha] at h
        exact absurd h (by simp)
      · simp only [ha] at h ⊢
        rcases hre : reallocate_token s victim.id alt.id
            (some "Auto-reallocation for emergency insertion") with ⟨s1, r1⟩
        simp only [hre] at h ⊢
        rcases r1 with e1 | tk
        · exact absurd h (by simp)
        · exact ⟨victim, slot, alt, tk, rfl, rfl, ha, by rw [hre], by rw [hre]⟩

/-- A successful bump does not guarantee the insertion: in the day-5
state whose only token was booked in advance, the bump moves the walk-in
to the sibling slot, but the inner allocation then regenerates the
occupied number (1, 5, 1) — the advance booking's timestamp lies before
midnight of day 5, so the count query misses it — and the flush aborts
the whole transaction, bump included: the emergency insertion fails with
the integrity error and the state is left exactly as it was. -/
theorem emergency_integrity_abort_example :
    (reallocate_lowest_priority ex7b_state 1).2 = Except.ok true ∧
    (handle_emergency_insertion ex7b_state ex1_reqC false).2 = Except.error
      (EngineError.integrityError { doctor_id := 1, date := 5, ordinal := 1 }) ∧
    (handle_emergency_insertion ex7b_state ex1_reqC false).1 = ex7b_state :=
  ⟨rfl, rfl, rfl⟩

/-- C6 (amended): every successful allocation generates a token number of
the form (resource, date, ordinal) where the resource is the slot's
doctor and the date is the slot's date, and the number differs from the
number of every already-persisted token (the unique constraint on the
column makes a colliding flush abort instead); but the ordinal is one
plus the number of the doctor's existing tokens whose allocation
timestamp is at or after midnight of the slot's date — not one plus the
count of the doctor's tokens already allocated on that date. -/
theorem c6_token_number_amended {s : EngineState} {req : TokenRequest} {tok : Token}
    (h : (allocate_token s req).2 = Except.ok tok) :
    ∃ slot, getSlotWithValidation s req.slot_id = Except.ok slot ∧
      tok.token_number.doctor_id = slot.doctor_id ∧
      tok.token_number.date = slot.date ∧
      tok.token_number.ordinal =
        (s.tokens.filter (fun t => decide (t.doctor_id = slot.doctor_id ∧
          dateStart slot.date ≤ t.allocated_at))).length + 1 ∧
      ∀ t ∈ s.tokens, ¬ t.token_number = tok.token_number := by
  obtain ⟨slot, hs, hcap, hid, htok, hst, hfr⟩ := allocate_ok_state h
  refine ⟨slot, hs, ?_, ?_, ?_, hfr⟩ <;> rw [htok] <;> rfl

/-- C6 amended witness: the first day-5 allocation after the day-6
advance booking receives the ordinal 1 + (number of doctor-1 tokens
allocated at or after midnight of day 5), which is 2 because the day-6
booking is caught by the timestamp filter, and the persisted number
differs from the existing token's number. -/
theorem c6_token_number_amended_witness :
    ∃ tok, (allocate_token ex6_state ex6_reqB).2 = Except.ok tok ∧
      ∃ slot, getSlotWithValidation ex6_state ex6_reqB.slot_id = Except.ok slot ∧
        tok.token_number.doctor_id = slot.doctor_id ∧
        tok.token_number.date = slot.date ∧
        tok.token_number.ordinal =
          (ex6_state.tokens.filter (fun t => decide (t.doctor_id = slot.doctor_id ∧
            dateStart slot.date ≤ t.allocated_at))).length + 1 ∧
        ∀ t ∈ ex6_state.tokens, ¬ t.token_number = tok.token_number := by
  rcases he : (allocate_token ex6_state ex6_reqB).2 with e | tok
  · have hok : isOkResult (allocate_token ex6_state ex6_reqB).2 = true := rfl
    rw [he] at hok
    exact absurd hok (by simp [isOkResult])
  · exact ⟨tok, rfl, c6_token_number_amended he⟩

/-- C9: with the default weights (PRIORITY 10, FOLLOW_UP 5, ONLINE 3,
WALK_IN 1) and score = weight * 10 + max(0, 10 − count), the classes are
strictly separated: a PRIORITY score at any occupancy is at least a
FOLLOW_UP score at occupancy 0, and likewise down the weight table, so
the 0-10 timing bonus never lets a lower class outrank a higher one. -/
theorem c9_priority_class_separation (c : Nat) :
    calculate_priority_score TokenSource.follow_up 0 ≤
      calculate_priority_score TokenSource.priority c ∧
    calculate_priority_score TokenSource.online 0 ≤
      calculate_priority_score TokenSource.follow_up c ∧
    calculate_priority_score TokenSource.walk_in 0 ≤
      calculate_priority_score TokenSource.online c := by
  refine ⟨?_, ?_, ?_⟩ <;> simp [calculate_priority_score, PRIORITY_WEIGHTS] <;> omega

/-- C10 counterexample: the target slot of doctor 2 exists, is active and
has spare capacity, and the request names doctor 1, yet the allocation
does not succeed: the number generated from the slot's doctor and date,
(2, 5, 1), already belongs to the advance-booked token (whose allocation
timestamp lies before midnight of day 5, so the count query misses it),
and the flush aborts with the integrity error.  No doctor check is
involved; the unconditional-success form of the claim fails. -/
theorem c10_cross_doctor_integrity_blocked :
    (findSlot ex10_dupstate 1).map TimeSlot.doctor_id = some 2 ∧
    (findSlot ex10_dupstate 1).map TimeSlot.is_active = some true ∧
    (findSlot ex10_dupstate 1).map TimeSlot.current_count = some 1 ∧
    (findSlot ex10_dupstate 1).map TimeSlot.max_capacity = some 5 ∧
    ex10_req.doctor_id = 1 ∧
    (allocate_token ex10_dupstate ex10_req).2 = Except.error
      (EngineError.integrityError { doctor_id := 2, date := 5, ordinal := 1 }) :=
  ⟨rfl, rfl, rfl, rfl, rfl, rfl⟩

/-- C10 (amended): allocation performs no check that the request's doctor
matches the slot's owning doctor.  Whenever the target slot exists, is
active and has spare capacity, the request passes every engine
validation even though it names a different doctor, and the only
remaining obstacle is the token-number unique constraint: if the number
generated from the slot's doctor and date is already taken the flush
aborts with the integrity error, and otherwise the allocation succeeds
with the token carrying the request's doctor id while its token number
is derived from the slot's doctor id. -/
theorem c10_cross_doctor_amended (s : EngineState) (req : TokenRequest) (slot : TimeSlot)
    (hfind : findSlot s req.slot_id = some slot) (hact : slot.is_active = true)
    (hcap : slot.current_count < slot.max_capacity)
    (hdoc : req.doctor_id ≠ slot.doctor_id) :
    ((s.tokens.any (fun t => decide (t.token_number =
        generate_token_number s slot.doctor_id slot.date)) = true →
      (allocate_token s req).2 = Except.error (EngineError.integrityError
        (generate_token_number s slot.doctor_id slot.date))) ∧
     (¬ s.tokens.any (fun t => decide (t.token_number =
        generate_token_number s slot.doctor_id slot.date)) = true →
      isOkResult (allocate_token s req).2 = true ∧
      (allocate_token s req).2.toOption.map Token.doctor_id = some req.doctor_id ∧
      (allocate_token s req).2.toOption.map (fun t => t.token_number.doctor_id) =
        some slot.doctor_id)) ∧
    req.doctor_id ≠ slot.doctor_id := by
  refine ⟨⟨?_, ?_⟩, hdoc⟩
  · intro hdup
    unfold allocate_token getSlotWithValidation
    rw [hfind]
    simp only [hact, if_true, Nat.not_le.mpr hcap, if_false, hdup]
  · intro hdup
    unfold allocate_token getSlotWithValidation
    rw [hfind]
    simp only [hact, if_true, Nat.not_le.mpr hcap, if_false]
    rw [if_neg hdup]
    exact ⟨rfl, rfl, rfl⟩

/-- C10 amended witness: in the state with doctor 2's empty slot, the
request naming doctor 1 generates a fresh number, so the allocation
succeeds, the token records doctor 1 and the token number records
doctor 2. -/
theorem c10_cross_doctor_amended_witness :
    isOkResult (allocate_token ex10_state ex10_req).2 = true ∧
    (allocate_token ex10_state ex10_req).2.toOption.map Token.doctor_id = some 1 ∧
    (allocate_token ex10_state ex10_req).2.toOption.map
      (fun t => t.token_number.doctor_id) = some 2 ∧
    (1 : Nat) ≠ 2 := by
  have h := c10_cross_doctor_amended ex10_state ex10_req ex10_slot rfl rfl
    (by decide) (by decide)
  obtain ⟨hok, h1, h2⟩ := h.1.2 (by decide)
  exact ⟨hok, h1, h2, by decide⟩


theorem seqsOf_map_sublist (l : List Token) (g : Token → Token) (k : Nat)
    (h : ∀ t ∈ l, ((g t).slot_id = k ∧ occupying (g t).status) →
      (t.slot_id = k ∧ occupying t.status) ∧ (g t).sequence_number = t.sequence_number) :
    (seqsOf (l.map g) k).Sublist (seqsOf l k) := by
  unfold seqsOf
  induction l with
  | nil => simp
  | cons t ts ih =>
    have ihs := ih (fun u hu => h u (List.mem_cons_of_mem t hu))
    rw [List.map_cons, List.filter_cons, List.filter_cons]
    by_cases hg : (g t).slot_id = k ∧ occupying (g t).status
    · obtain ⟨hp, hseq⟩ := h t (List.mem_cons_self t ts) hg
      rw [if_pos (decide_eq_true hg), if_pos (decide_eq_true hp)]
      rw [List.map_cons, List.map_cons, hseq]
      exact List.Sublist.cons₂ t.sequence_number ihs
    · rw [if_neg (by simpa using hg)]
      by_cases hp : t.slot_id = k ∧ occupying t.status
      · rw [if_pos (decide_eq_true hp), List.map_cons]
        exact List.Sublist.cons t.sequence_number ihs
      · rw [if_neg (by simpa using hp)]
        exact ihs

theorem foldl_max_init (l : List Token) (init : Nat) :
    init ≤ l.foldl (fun m t => max m t.sequence_number) init := by
  induction l generalizing init with
  | nil => exact Nat.le_refl init
  | cons t ts ih =>
    exact Nat.le_trans (Nat.le_max_left init t.sequence_number) (ih _)

theorem foldl_max_mem (l : List Token) (t : Token) (ht : t ∈ l) (init : Nat) :
    t.sequence_number ≤ l.foldl (fun m t => max m t.sequence_number) init := by
  induction l generalizing init with
  | nil => exact absurd ht (by simp)
  | cons u us ih =>
    rcases List.mem_cons.mp ht with rfl | hm
    · exact Nat.le_trans (Nat.le_max_right init t.sequence_number) (foldl_max_init us _)
    · exact ih hm _

theorem seq_lt_next (s : EngineState) (k : Nat) (t : Token) (ht : t ∈ s.tokens)
    (hts : t.slot_id = k) : t.sequence_number < get_next_sequence_number s k := by
  unfold get_next_sequence_number
  have hmem : t ∈ s.tokens.filter (fun u => decide (u.slot_id = k)) :=
    List.mem_filter.mpr ⟨ht, by simpa using hts⟩
  exact Nat.lt_succ_of_le (foldl_max_mem _ t hmem 0)

theorem ids_map_of_pointwise (l : List Token) (g : Token → Token)
    (hg : ∀ t, (g t).id = t.id) :
    (l.map g).map (fun t => t.id) = l.map (fun t => t.id) := by
  rw [List.map_map]
  exact List.map_congr_left (fun t _ => hg t)

theorem clauses12_map (l : List Token) (n : Nat) (g : Token → Token)
    (hg : ∀ t, (g t).id = t.id) (h1 : ∀ t ∈ l, t.id < n)
    (h2 : (l.map (fun t => t.id)).Nodup) :
    (∀ t ∈ l.map g, t.id < n) ∧ ((l.map g).map (fun t => t.id)).Nodup := by
  constructor
  · intro t hmt
    obtain ⟨u, hu, rfl⟩ := List.mem_map.mp hmt
    rw [hg u]
    exact h1 u hu
  · rw [ids_map_of_pointwise l g hg]
    exact h2

theorem resequenceUpdate_slot (q : List Token) (t : Token) :
    (resequenceUpdate q t).slot_id = t.slot_id := by
  unfold resequenceUpdate
  rcases option_cases (q.findIdx? (fun u : Token => decide (u.id = t.id)))
    with h | ⟨i, h⟩ <;> rw [h]

theorem resequenceUpdate_status (q : List Token) (t : Token) :
    (resequenceUpdate q t).status = t.status := by
  unfold resequenceUpdate
  rcases option_cases (q.findIdx? (fun u : Token => decide (u.id = t.id)))
    with h | ⟨i, h⟩ <;> rw [h]

theorem mem_get_slot_queue {s : EngineState} {j : Nat} {t : Token} :
    t ∈ get_slot_queue s j ↔ t ∈ s.tokens ∧ t.slot_id = j ∧ occupying t.status := by
  unfold get_slot_queue
  rw [List.mem_insertionSort, List.mem_filter]
  simp [and_assoc]

theorem resequence_seqs_nodup (s : EngineState) (j : Nat)
    (hids : (s.tokens.map (fun t => t.id)).Nodup) :
    (seqsOf (resequence_slot_tokens s j).tokens j).Nodup := by
  rw [tokens_resequence_shape]
  unfold seqsOf
  rw [List.filter_map]
  have hfix : ∀ t ∈ s.tokens,
      ((fun u : Token => decide (u.slot_id = j ∧ occupying u.status)) ∘
        resequenceUpdate (get_slot_queue s j)) t =
      (fun u : Token => decide (u.slot_id = j ∧ occupying u.status)) t := by
    intro t _
    exact decide_eq_decide.mpr
      (by rw [resequenceUpdate_slot, resequenceUpdate_status])
  rw [List.filter_congr hfix, List.map_map]
  have hnd : (s.tokens.filter
      (fun u : Token => decide (u.slot_id = j ∧ occupying u.status))).Nodup :=
    List.Nodup.sublist (List.filter_sublist _) (List.Nodup.of_map _ hids)
  apply List.Nodup.map_on ?_ hnd
  intro x hx y hy hxy
  have hx2 := List.mem_filter.mp hx
  have hy2 := List.mem_filter.mp hy
  have hxq : x ∈ get_slot_queue s j := by
    rw [mem_get_slot_queue]
    exact ⟨hx2.1, by simpa using hx2.2⟩
  have hyq : y ∈ get_slot_queue s j := by
    rw [mem_get_slot_queue]
    exact ⟨hy2.1, by simpa using hy2.2⟩
  have hfx := @List.findIdx?_eq_some_of_exists Token (get_slot_queue s j)
    (fun q : Token => decide (q.id = x.id)) ⟨x, hxq, by simp⟩
  have hfy := @List.findIdx?_eq_some_of_exists Token (get_slot_queue s j)
    (fun q : Token => decide (q.id = y.id)) ⟨y, hyq, by simp⟩
  have hgx : (resequenceUpdate (get_slot_queue s j) x).sequence_number =
      (get_slot_queue s j).findIdx (fun q : Token => decide (q.id = x.id)) + 1 := by
    unfold resequenceUpdate
    rw [hfx]
  have hgy : (resequenceUpdate (get_slot_queue s j) y).sequence_number =
      (get_slot_queue s j).findIdx (fun q : Token => decide (q.id = y.id)) + 1 := by
    unfold resequenceUpdate
    rw [hfy]
  simp only [Function.comp_apply] at hxy
  rw [hgx, hgy] at hxy
  have hidx : (get_slot_queue s j).findIdx (fun q : Token => decide (q.id = x.id)) =
      (get_slot_queue s j).findIdx (fun q : Token => decide (q.id = y.id)) := by
    omega
  obtain ⟨hlx, hpx, _⟩ := List.findIdx?_eq_some_iff_getElem.mp hfx
  obtain ⟨hly, hpy, _⟩ := List.findIdx?_eq_some_iff_getElem.mp hfy
  have h3 : (get_slot_queue s j).get ⟨_, hlx⟩ = (get_slot_queue s j).get ⟨_, hly⟩ :=
    congrArg (get_slot_queue s j).get (Fin.ext hidx)
  have h1 : ((get_slot_queue s j).get ⟨_, hlx⟩).id = x.id := by simpa using hpx
  have h2 : ((get_slot_queue s j).get ⟨_, hly⟩).id = y.id := by simpa using hpy
  exact List.inj_on_of_nodup_map hids hx2.1 hy2.1 (by rw [← h1, h3, h2])

theorem resequence_seqs_other (s : EngineState) (j k : Nat) (hjk : ¬ k = j)
    (hids : (s.tokens.map (fun t => t.id)).Nodup) :
    (seqsOf (resequence_slot_tokens s j).tokens k).Sublist (seqsOf s.tokens k) := by
  rw [tokens_resequence_shape]
  apply seqsOf_map_sublist
  intro t ht hg
  have hslot := resequenceUpdate_slot (get_slot_queue s j) t
  have hstat := resequenceUpdate_status (get_slot_queue s j) t
  have hts : t.slot_id = k := by rw [← hslot]; exact hg.1
  have hocc : occupying t.status := by rw [← hstat]; exact hg.2
  refine ⟨⟨hts, hocc⟩, ?_⟩
  unfold resequenceUpdate
  rcases option_cases ((get_slot_queue s j).findIdx? (fun q : Token => decide (q.id = t.id)))
    with hq | ⟨i, hq⟩
  · rw [hq]
  · exfalso
    obtain ⟨hlen, hpi, _⟩ := List.findIdx?_eq_some_iff_getElem.mp hq
    have hmem : (get_slot_queue s j).get ⟨i, hlen⟩ ∈ get_slot_queue s j :=
      List.get_mem _ _ hlen
    obtain ⟨hmt, hsl, _⟩ := mem_get_slot_queue.mp hmem
    have hid : ((get_slot_queue s j).get ⟨i, hlen⟩).id = t.id := by simpa using hpi
    have heq := List.inj_on_of_nodup_map hids hmt ht hid
    rw [heq] at hsl
    rw [hts] at hsl
    exact hjk hsl

theorem tokens_updateToken (s : EngineState) (tid : Nat) (f : Token → Token) :
    (updateToken s tid f).tokens =
      s.tokens.map (fun t => if t.id = tid then f t else t) := rfl

theorem tokensWF_ext {s s2 : EngineState} (h : TokensWF s) (ht : s2.tokens = s.tokens)
    (hn : s2.next_token_id = s.next_token_id) : TokensWF s2 := by
  unfold TokensWF at h ⊢
  rw [ht, hn]
  exact h

theorem tokensWF_updateToken_release (s : EngineState) (tid : Nat) (f : Token → Token)
    (hid : ∀ t, (f t).id = t.id)
    (hrel : ∀ t, ((f t).slot_id = t.slot_id ∧ (f t).status = t.status ∧
      (f t).sequence_number = t.sequence_number) ∨ ¬ occupying (f t).status)
    (h : TokensWF s) : TokensWF (updateToken s tid f) := by
  obtain ⟨h1, h2, h3⟩ := h
  have hg : ∀ t : Token, ((fun t => if t.id = tid then f t else t) t).id = t.id := by
    intro t
    show (if t.id = tid then f t else t).id = t.id
    by_cases ht : t.id = tid
    · rw [if_pos ht]
      exact hid t
    · rw [if_neg ht]
  obtain ⟨c1, c2⟩ := clauses12_map s.tokens s.next_token_id _ hg h1 h2
  refine ⟨?_, ?_, ?_⟩
  · intro t ht
    rw [tokens_updateToken] at ht
    exact c1 t ht
  · rw [tokens_updateToken]
    exact c2
  · intro k
    rw [tokens_updateToken]
    apply List.Nodup.sublist ?_ (h3 k)
    apply seqsOf_map_sublist
    intro t ht hocc
    by_cases htid : t.id = tid
    · rw [if_pos htid] at hocc ⊢
      rcases hrel t with ⟨hs1, hs2, hs3⟩ | hno
      · exact ⟨⟨hs1 ▸ hocc.1, hs2 ▸ hocc.2⟩, hs3⟩
      · exact absurd hocc.2 hno
    · rw [if_neg htid] at hocc ⊢
      exact ⟨hocc, rfl⟩

theorem tokensWF_resequence (s : EngineState) (j : Nat) (h : TokensWF s) :
    TokensWF (resequence_slot_tokens s j) := by
  obtain ⟨h1, h2, h3⟩ := h
  obtain ⟨c1, c2⟩ := clauses12_map s.tokens s.next_token_id _
    (resequenceUpdate_id (get_slot_queue s j)) h1 h2
  refine ⟨?_, ?_, ?_⟩
  · intro t ht
    rw [tokens_resequence_shape] at ht
    exact c1 t ht
  · rw [tokens_resequence_shape]
    exact c2
  · intro k
    by_cases hk : k = j
    · rw [hk]
      exact resequence_seqs_nodup s j h2
    · exact List.Nodup.sublist (resequence_seqs_other s j k hk h2) (h3 k)

theorem tokensWF_alloc (s : EngineState) (req : TokenRequest) (h : TokensWF s) :
    TokensWF (allocate_token s req).1 := by
  rcases except_cases (allocate_token s req).2 with ⟨e, he⟩ | ⟨tok, he⟩
  · rw [allocate_error_state he]
    exact h
  · obtain ⟨slot, hs, hcap, hid, htok, hst, hfr⟩ := allocate_ok_state he
    rw [hst]
    apply tokensWF_ext ?_ (tokens_updateSlot _ _ _) (next_id_updateSlot _ _ _)
    obtain ⟨h1, h2, h3⟩ := h
    refine ⟨?_, ?_, ?_⟩
    · intro t ht
      rcases List.mem_append.mp ht with hm | hm
      · exact Nat.lt_succ_of_lt (h1 t hm)
      · have heq : t = tok := by simpa using hm
        rw [heq, htok]
        exact Nat.lt_succ_self _
    · show ((s.tokens ++ [tok]).map (fun t => t.id)).Nodup
      rw [List.map_append, List.nodup_append]
      refine ⟨h2, by simp, ?_⟩
      intro a ha hb
      obtain ⟨u, hu, rfl⟩ := List.mem_map.mp ha
      have han : u.id < s.next_token_id := h1 u hu
      have hbn : u.id = tok.id := by simpa using hb
      rw [htok] at hbn
      exact absurd hbn (Nat.ne_of_lt han)
    · intro k
      have h3k := h3 k
      unfold seqsOf at h3k ⊢
      show ((List.filter _ (s.tokens ++ [tok])).map _).Nodup
      rw [List.filter_append]
      by_cases hks : decide (tok.slot_id = k ∧ occupying tok.status) = true
      · have hfil : List.filter
            (fun t : Token => decide (t.slot_id = k ∧ occupying t.status)) [tok] = [tok] := by
          simp only [List.filter_cons, List.filter_nil]
          rw [if_pos hks]
        rw [hfil, List.map_append, List.nodup_append]
        refine ⟨h3k, by simp, ?_⟩
        intro a ha hb
        obtain ⟨u, hu, rfl⟩ := List.mem_map.mp ha
        have hu2 := List.mem_filter.mp hu
        have huk : u.slot_id = k := (of_decide_eq_true hu2.2).1
        have htk : tok.slot_id = k := (of_decide_eq_true hks).1
        have hreqk : req.slot_id = k := by
          rw [← htk, htok]
        have hlt := seq_lt_next s k u hu2.1 huk
        have hbn : u.sequence_number = tok.sequence_number := by simpa using hb
        have hseq : tok.sequence_number = get_next_sequence_number s req.slot_id := by
          rw [htok]
        rw [hseq, hreqk] at hbn
        exact absurd hbn (Nat.ne_of_lt hlt)
      · have hfil : List.filter
            (fun t : Token => decide (t.slot_id = k ∧ occupying t.status)) [tok] = [] := by
          simp only [List.filter_cons, List.filter_nil]
          rw [if_neg hks]
        rw [hfil, List.append_nil]
        exact h3k

theorem tokensWF_cancel (s : EngineState) (tid : Nat) (r : Option String)
    (h : TokensWF s) : TokensWF (cancel_token s tid r).1 := by
  have hupd : TokensWF (updateToken s tid (cancelUpdate s.now r)) :=
    tokensWF_updateToken_release s tid _ (cancelUpdate_id s.now r)
      (fun t => Or.inr (by intro hocc; rcases hocc with hh | hh | hh <;> simp [cancelUpdate] at hh))
      h
  rcases except_cases (cancel_token s tid r).2 with ⟨e, he⟩ | ⟨tok, he⟩
  · rcases cancel_error_state he with h1 | h1 <;> rw [h1]
    · exact h
    · exact hupd
  · obtain ⟨token, hg, hst, htok, hslot, h1⟩ := cancel_ok_state he
    rw [h1]
    apply tokensWF_resequence
    exact tokensWF_ext hupd (tokens_updateSlot _ _ _) (next_id_updateSlot _ _ _)

theorem tokensWF_noshow (s : EngineState) (tid : Nat) (h : TokensWF s) :
    TokensWF (mark_no_show s tid).1 := by
  have hupd : TokensWF (updateToken s tid (noShowUpdate s.now)) :=
    tokensWF_updateToken_release s tid _ (fun t => rfl)
      (fun t => Or.inr (by intro hocc; rcases hocc with hh | hh | hh <;> simp [noShowUpdate] at hh))
      h
  rcases except_cases (mark_no_show s tid).2 with ⟨e, he⟩ | ⟨tok, he⟩
  · rcases noshow_error_state he with h1 | h1 <;> rw [h1]
    · exact h
    · exact hupd
  · obtain ⟨token, hg, hst, htok, hslot, h1⟩ := noshow_ok_state he
    rw [h1]
    exact tokensWF_ext hupd (tokens_updateSlot _ _ _) (next_id_updateSlot _ _ _)

theorem tokensWF_realloc_core (s : EngineState) (tid nsid old_id q : Nat)
    (r : Option String) (f1 f2 : TimeSlot → TimeSlot) (h : TokensWF s) :
    TokensWF (resequence_slot_tokens (resequence_slot_tokens (updateToken (updateToken
      (updateSlot (updateSlot s old_id f1) nsid f2)
      tid (fun t => { t with slot_id := nsid }))
      tid (reallocUpdate q r)) old_id) nsid) := by
  obtain ⟨h1, h2, h3⟩ := h
  have hg1 : ∀ t : Token,
      ((fun t : Token => if t.id = tid then { t with slot_id := nsid } else t) t).id =
        t.id := by
    intro t
    show (if t.id = tid then { t with slot_id := nsid } else t).id = t.id
    by_cases ht : t.id = tid
    · rw [if_pos ht]
    · rw [if_neg ht]
  have hg2 : ∀ t : Token,
      ((fun t : Token => if t.id = tid then reallocUpdate q r t else t) t).id = t.id := by
    intro t
    show (if t.id = tid then reallocUpdate q r t else t).id = t.id
    by_cases ht : t.id = tid
    · rw [if_pos ht]
      rfl
    · rw [if_neg ht]
  obtain ⟨c1a, c2a⟩ := clauses12_map s.tokens s.next_token_id _ hg1 h1 h2
  obtain ⟨c1b, c2b⟩ := clauses12_map _ s.next_token_id _ hg2 c1a c2a
  have c3b : ∀ k, ¬ k = nsid →
      (seqsOf ((s.tokens.map
          (fun t => if t.id = tid then { t with slot_id := nsid } else t)).map
        (fun t => if t.id = tid then reallocUpdate q r t else t)) k).Nodup := by
    intro k hk
    apply List.Nodup.sublist ?_ (h3 k)
    refine List.Sublist.trans (seqsOf_map_sublist _ _ k ?_) (seqsOf_map_sublist _ _ k ?_)
    · intro u hu hocc
      by_cases huid : u.id = tid
      · have hus : u.slot_id = nsid := by
          obtain ⟨t, htm, rfl⟩ := List.mem_map.mp hu
          by_cases htid : t.id = tid
          · show (if t.id = tid then { t with slot_id := nsid } else t).slot_id = nsid
            rw [if_pos htid]
          · exact absurd ((hg1 t) ▸ huid) htid
        rw [if_pos huid] at hocc
        have h5 : u.slot_id = k := hocc.1
        exact absurd (h5.symm.trans hus) hk
      · rw [if_neg huid] at hocc ⊢
        exact ⟨hocc, rfl⟩
    · intro t ht hocc
      by_cases htid : t.id = tid
      · rw [if_pos htid] at hocc
        exact absurd hocc.1.symm hk
      · rw [if_neg htid] at hocc ⊢
        exact ⟨hocc, rfl⟩
  refine ⟨?_, ?_, ?_⟩
  · intro t ht
    rw [tokens_resequence_shape, tokens_resequence_shape, tokens_updateToken,
      tokens_updateToken, tokens_updateSlot, tokens_updateSlot] at ht
    obtain ⟨u, hu, rfl⟩ := List.mem_map.mp ht
    obtain ⟨v, hv, rfl⟩ := List.mem_map.mp hu
    rw [next_id_resequence, next_id_resequence, next_id_updateToken,
      next_id_updateToken, next_id_updateSlot, next_id_updateSlot]
    rw [resequenceUpdate_id, resequenceUpdate_id]
    exact c1b v hv
  · rw [tokens_resequence_shape, tokens_resequence_shape, tokens_updateToken,
      tokens_updateToken, tokens_updateSlot, tokens_updateSlot,
      ids_map_of_pointwise _ _ (resequenceUpdate_id _),
      ids_map_of_pointwise _ _ (resequenceUpdate_id _)]
    exact c2b
  · intro k
    by_cases hk : k = nsid
    · rw [hk]
      apply resequence_seqs_nodup
      rw [tokens_resequence_shape, tokens_updateToken, tokens_updateToken,
        tokens_updateSlot, tokens_updateSlot,
        ids_map_of_pointwise _ _ (resequenceUpdate_id _)]
      exact c2b
    · refine List.Nodup.sublist (resequence_seqs_other _ nsid k hk ?_) ?_
      · rw [tokens_resequence_shape, tokens_updateToken, tokens_updateToken,
          tokens_updateSlot, tokens_updateSlot,
          ids_map_of_pointwise _ _ (resequenceUpdate_id _)]
        exact c2b
      · by_cases hko : k = old_id
        · rw [hko]
          apply resequence_seqs_nodup
          rw [tokens_updateToken, tokens_updateToken,
            tokens_updateSlot, tokens_updateSlot]
          exact c2b
        · refine List.Nodup.sublist (resequence_seqs_other _ old_id k hko ?_) ?_
          · rw [tokens_updateToken, tokens_updateToken,
              tokens_updateSlot, tokens_updateSlot]
            exact c2b
          · rw [tokens_updateToken, tokens_updateToken,
              tokens_updateSlot, tokens_updateSlot]
            exact c3b k hk

theorem reallocate_ok_tokens {s : EngineState} {tid nsid : Nat} {r : Option String}
    {tok : Token} (h : (reallocate_token s tid nsid r).2 = Except.ok tok) :
    ∃ old_id new_id, new_id = nsid ∧
      (reallocate_token s tid nsid r).1 =
        resequence_slot_tokens (resequence_slot_tokens (updateToken (updateToken
          (updateSlot (updateSlot s old_id
            (fun sl => { sl with current_count := sl.current_count - 1 }))
            new_id (fun sl => { sl with current_count := sl.current_count + 1 }))
          tid (fun t => { t with slot_id := nsid }))
          tid (reallocUpdate (get_next_sequence_number (updateToken
            (updateSlot (updateSlot s old_id
              (fun sl => { sl with current_count := sl.current_count - 1 }))
              new_id (fun sl => { sl with current_count := sl.current_count + 1 }))
            tid (fun t => { t with slot_id := nsid })) nsid) r))
          old_id) new_id := by
  unfold reallocate_token at h ⊢
  rcases except_cases (getToken s tid) with ⟨e0, hg⟩ | ⟨token, hg⟩
  · rw [hg] at h
    exact absurd h (by simp)
  · simp only [hg] at h ⊢
    rcases except_cases (getSlotWithValidation s token.slot_id) with ⟨e1, ho⟩ | ⟨old_slot, ho⟩
    · rw [ho] at h
      exact absurd h (by simp)
    · simp only [ho] at h ⊢
      rcases except_cases (getSlotWithValidation s nsid) with ⟨e2, hn⟩ | ⟨new_slot, hn⟩
      · rw [hn] at h
        exact absurd h (by simp)
      · simp only [hn] at h ⊢
        by_cases hd : token.doctor_id ≠ new_slot.doctor_id
        · rw [if_pos hd] at h
          exact absurd h (by simp)
        · rw [if_neg hd] at h ⊢
          by_cases hc : new_slot.max_capacity ≤ new_slot.current_count
          · rw [if_pos hc] at h
            exact absurd h (by simp)
          · rw [if_neg hc] at h ⊢
            have hni : new_slot.id = nsid :=
              (findSlot_eq_some (getSlot_ok hn).1).2
            rcases except_cases (getToken (resequence_slot_tokens (resequence_slot_tokens
                (updateToken (updateToken
                  (updateSlot (updateSlot s old_slot.id
                    (fun sl => { sl with current_count := sl.current_count - 1 }))
                    new_slot.id (fun sl => { sl with current_count := sl.current_count + 1 }))
                  tid (fun t => { t with slot_id := nsid }))
                  tid (reallocUpdate (get_next_sequence_number
                    (updateToken (updateSlot (updateSlot s old_slot.id
                      (fun sl => { sl with current_count := sl.current_count - 1 }))
                      new_slot.id (fun sl => { sl with current_count := sl.current_count + 1 }))
                      tid (fun t => { t with slot_id := nsid })) nsid) r))
                old_slot.id) new_slot.id) tid) with ⟨e3, h6⟩ | ⟨t6, h6⟩
            · simp only [h6] at h
              exact absurd h (by simp)
            · simp only [h6]
              exact ⟨old_slot.id, new_slot.id, hni, rfl⟩

theorem tokensWF_realloc (s : EngineState) (tid nsid : Nat) (r : Option String)
    (h : TokensWF s) : TokensWF (reallocate_token s tid nsid r).1 := by
  rcases except_cases (reallocate_token s tid nsid r).2 with ⟨e, he⟩ | ⟨tok, he⟩
  · rw [reallocate_error_state he]
    exact h
  · obtain ⟨old_id, new_id, hnew, hst⟩ := reallocate_ok_tokens he
    rw [hst, hnew]
    exact tokensWF_realloc_core s tid nsid old_id _ r _ _ h

theorem tokensWF_bump (s : EngineState) (slot_id : Nat) (h : TokensWF s) :
    TokensWF (reallocate_lowest_priority s slot_id).1 := by
  rcases except_cases (reallocate_lowest_priority s slot_id).2 with ⟨e, he⟩ | ⟨b, he⟩
  · rw [bump_error_state he]
    exact h
  · rcases b with _ | _
    · rw [bump_ok_false_state he]
      exact h
    · obtain ⟨victim, slot, alt, tk, hv, hs0, ha, hrok, hstate⟩ := bump_ok_true_state he
      rw [hstate]
      exact tokensWF_realloc s victim.id alt.id _ h

theorem tokensWF_emergency (s : EngineState) (req : TokenRequest) (force : Bool)
    (h : TokensWF s) : TokensWF (handle_emergency_insertion s req force).1 := by
  obtain ⟨s1, hs1, hres⟩ := emergency_shape s req force
  have hwf1 : TokensWF s1 := by
    rcases hs1 with rfl | ⟨slot_id, rfl⟩
    · exact h
    · exact tokensWF_bump s slot_id h
  rcases hres with hr | ⟨tok, hok, hr⟩
  · rw [hr]
    exact hwf1
  · rw [hr]
    apply tokensWF_updateToken_release
    · intro t
      rfl
    · intro t
      exact Or.inl ⟨rfl, rfl, rfl⟩
    · exact tokensWF_alloc s1 _ hwf1

theorem tokensWF_applyOp (s : EngineState) (op : Op) (h : TokensWF s) :
    TokensWF (applyOp s op) := by
  cases op with
  | alloc req => exact tokensWF_alloc s req h
  | cancel tid r => exact tokensWF_cancel s tid r h
  | noshow tid => exact tokensWF_noshow s tid h
  | realloc tid nsid r => exact tokensWF_realloc s tid nsid r h
  | emergency req f => exact tokensWF_emergency s req f h
  | tick t => exact tokensWF_ext h rfl rfl

theorem tokensWF_applyOps (ops : List Op) :
    ∀ s : EngineState, TokensWF s → TokensWF (applyOps s ops) := by
  induction ops with
  | nil => exact fun s h => h
  | cons op ops ih =>
    intro s h
    exact ih (applyOp s op) (tokensWF_applyOp s op h)

theorem tokensWF_reachable {s : EngineState} (hr : Reachable s) : TokensWF s := by
  obtain ⟨s0, ops, h0, rfl⟩ := hr
  apply tokensWF_applyOps
  refine ⟨?_, ?_, ?_⟩
  · intro t ht
    rw [h0] at ht
    exact absurd ht (by simp)
  · rw [h0]
    exact List.nodup_nil
  · intro k
    unfold seqsOf
    rw [h0]
    exact List.nodup_nil

theorem strictBefore_exactly_one (a b : Token)
    (hs : a.sequence_number ≠ b.sequence_number) :
    (strictBefore a b ∧ ¬ strictBefore b a) ∨
    (strictBefore b a ∧ ¬ strictBefore a b) := by
  unfold strictBefore
  omega

theorem queue_mem_seq_ne {s : EngineState} {j : Nat} {a b : Token}
    (h3 : (seqsOf s.tokens j).Nodup)
    (ha : a ∈ get_slot_queue s j) (hb : b ∈ get_slot_queue s j) (hne : a ≠ b) :
    a.sequence_number ≠ b.sequence_number := by
  obtain ⟨hma, hsa, hoa⟩ := mem_get_slot_queue.mp ha
  obtain ⟨hmb, hsb, hob⟩ := mem_get_slot_queue.mp hb
  intro hseq
  have hfa : a ∈ s.tokens.filter (fun t => decide (t.slot_id = j ∧ occupying t.status)) :=
    List.mem_filter.mpr ⟨hma, decide_eq_true ⟨hsa, hoa⟩⟩
  have hfb : b ∈ s.tokens.filter (fun t => decide (t.slot_id = j ∧ occupying t.status)) :=
    List.mem_filter.mpr ⟨hmb, decide_eq_true ⟨hsb, hob⟩⟩
  unfold seqsOf at h3
  exact hne (List.inj_on_of_nodup_map h3 hfa hfb hseq)

theorem sorted_perm_eq : ∀ (l1 l2 : List Token),
    (∀ a ∈ l1, ∀ b ∈ l1, queueLax a b → queueLax b a → a = b) →
    l1.Perm l2 → List.Sorted queueLax l1 → List.Sorted queueLax l2 → l1 = l2 := by
  intro l1
  induction l1 with
  | nil =>
    intro l2 ha hp hs1 hs2
    exact (List.perm_nil.mp hp.symm).symm
  | cons a t1 ih =>
    intro l2 ha hp hs1 hs2
    rcases l2 with _ | ⟨b, t2⟩
    · have := hp.length_eq
      simp at this
    · have hab : a = b := by
        by_contra hne
        have hamem : a ∈ b :: t2 := hp.mem_iff.mp (List.mem_cons_self a t1)
        have hbmem : b ∈ a :: t1 := hp.mem_iff.mpr (List.mem_cons_self b t2)
        have ha2 : a ∈ t2 := by
          rcases List.mem_cons.mp hamem with h | h
          · exact absurd h hne
          · exact h
        have hb1 : b ∈ t1 := by
          rcases List.mem_cons.mp hbmem with h | h
          · exact absurd h.symm hne
          · exact h
        have hlab : queueLax a b := (List.sorted_cons.mp hs1).1 b hb1
        have hlba : queueLax b a := (List.sorted_cons.mp hs2).1 a ha2
        exact hne (ha a (List.mem_cons_self a t1) b hbmem hlab hlba)
      subst hab
      have hp2 : t1.Perm t2 := hp.cons_inv
      have ht1 : List.Sorted queueLax t1 := (List.sorted_cons.mp hs1).2
      have ht2 : List.Sorted queueLax t2 := (List.sorted_cons.mp hs2).2
      have ha2 : ∀ x ∈ t1, ∀ y ∈ t1, queueLax x y → queueLax y x → x = y :=
        fun x hx y hy => ha x (List.mem_cons_of_mem a hx) y (List.mem_cons_of_mem a hy)
      exact congrArg (List.cons a) (ih t2 ha2 hp2 ht1 ht2)

/-- C8: on every reachable state, the slot queue contains exactly the
slot's tokens in an occupying status (allocated, checked-in, consulting),
it is sorted by priority score descending, then sequence number
ascending, then allocation time ascending; the comparison behaves as a
strict total order on the queue: of any two distinct queue members,
exactly one compares strictly before the other; and the order is
deterministic: any permutation of the queue that is sorted by the same
key is the queue itself. -/
theorem c8_queue_strict_order {s : EngineState} (hr : Reachable s) (slot_id : Nat) :
    (∀ t, t ∈ get_slot_queue s slot_id ↔
      t ∈ s.tokens ∧ t.slot_id = slot_id ∧ occupying t.status) ∧
    List.Sorted queueLax (get_slot_queue s slot_id) ∧
    (∀ a ∈ get_slot_queue s slot_id, ∀ b ∈ get_slot_queue s slot_id, a ≠ b →
      (strictBefore a b ∧ ¬ strictBefore b a) ∨
      (strictBefore b a ∧ ¬ strictBefore a b)) ∧
    (∀ l, l.Perm (get_slot_queue s slot_id) → List.Sorted queueLax l →
      l = get_slot_queue s slot_id) := by
  obtain ⟨h1, h2, h3⟩ := tokensWF_reachable hr
  refine ⟨fun t => mem_get_slot_queue, ?_, ?_, ?_⟩
  · unfold get_slot_queue
    exact List.sorted_insertionSort queueLax _
  · intro a ha b hb hne
    exact strictBefore_exactly_one a b (queue_mem_seq_ne (h3 slot_id) ha hb hne)
  · intro l hp hsl
    apply sorted_perm_eq l (get_slot_queue s slot_id) ?_ hp hsl ?_
    · intro a hal b hbl hlab hlba
      have ha := hp.subset hal
      have hb := hp.subset hbl
      by_contra hne
      have hsne := queue_mem_seq_ne (h3 slot_id) ha hb hne
      unfold queueLax at hlab hlba
      omega
    · unfold get_slot_queue
      exact List.sorted_insertionSort queueLax _

/-- C8 witness: in the reachable state with two walk-ins allocated into a
capacity-3 slot, the queue lists token 0 (score 20) before token 1
(score 19), and any sorted permutation of the queue is the queue
itself. -/
theorem c8_queue_strict_order_witness :
    (get_slot_queue ex8_state 1).map (fun t => t.id) = [0, 1] ∧
    (∀ l, l.Perm (get_slot_queue ex8_state 1) → List.Sorted queueLax l →
      l = get_slot_queue ex8_state 1) := by
  have hr : Reachable ex8_state :=
    ⟨{ slots := [{ id := 1, doctor_id := 1, date := 0, start_time := 0, end_time := 10,
                   max_capacity := 3, current_count := 0, is_active := true }],
       tokens := [], next_token_id := 0, now := 0 },
     [Op.alloc ex1_reqA, Op.alloc ex2_reqB], rfl, rfl⟩
  exact ⟨rfl, (c8_queue_strict_order hr 1).2.2.2⟩

end AuraToken
